import Mathlib

/-!
AMBROSIA C client: wire codec and ingress walk.

A shallow embedding of `Clients/C/src/ambrosia_client.c`.

Conventions of the embedding.

* A byte is a `Nat` (below 256 wherever the code produces it); a buffer is a
  `List Nat`; a cursor into a buffer is an offset.  A `write_*` function returns
  the bytes it stores at the cursor, so the advanced cursor of the C function is
  the old cursor plus the length of the returned list.
* `int32_t`/`int` values are `Int`; `uint32_t` values are `Nat` below `2^32`.
  Conversions and shifts are taken modulo `2^32` (`to_u32`, `to_i32`), `>>` on a
  signed value is arithmetic, and `int` sums wrap (`wrap32`).
* A read through a cursor that has left the buffer, or through `NULL`, is
  undefined behaviour in C; the embedding reports it as a separate outcome
  (`fault`) instead of inventing a byte.
-/

namespace Ambrosia

/-! ## Machine integers -/

/-- The bit pattern of an `int32_t` seen as `uint32_t` (two's complement). -/
def to_u32 (v : Int) : Nat := (v % 4294967296).toNat

/-- The `int32_t` value of a 32-bit pattern. -/
def to_i32 (u : Nat) : Int :=
  if u % 4294967296 < 2147483648 then ((u % 4294967296 : Nat) : Int)
  else ((u % 4294967296 : Nat) : Int) - 4294967296

/-- An `int` result reduced to 32 bits. -/
def wrap32 (v : Int) : Int := to_i32 (to_u32 v)

/-- Whether an integer is an `int32_t` value. -/
def is_i32 (v : Int) : Prop := -2147483648 ≤ v ∧ v < 2147483648

instance (v : Int) : Decidable (is_i32 v) := by
  unfold is_i32
  infer_instance

/-- A `char` (signed on the supported platforms) converted to `uint32_t`. -/
def char_to_u32 (b : Nat) : Nat := if b < 128 then b else b + 4294967040

/-! ## Varint codec (`write_zigzag_int`, `read_zigzag_int`, `zigzag_int_size`) -/

/-- The expression `(uint32_t)((value << 1) ^ (value >> 31))`. -/
def zigzag_bits (value : Int) : Nat :=
  ((to_u32 value <<< 1) % 4294967296) ^^^
    (if 2147483648 ≤ to_u32 value then 4294967295 else 0)

/-- The `while ((zigZagEncoded & ~0x7F) != 0)` loop of `write_zigzag_int` followed
by the final store.  The first argument bounds the number of iterations; a
32-bit value leaves the loop after at most four (`write_zigzag_loop_fuel`). -/
def write_zigzag_loop : Nat → Nat → List Nat
  | 0, _ => []
  | fuel + 1, zigZagEncoded =>
    if zigZagEncoded &&& 0xFFFFFF80 ≠ 0 then
      ((zigZagEncoded ||| 0x80) &&& 0xFF) :: write_zigzag_loop fuel (zigZagEncoded >>> 7)
    else [zigZagEncoded % 256]

/-- The bytes `write_zigzag_int(ptr, value)` stores at `ptr`. -/
def write_zigzag_int (value : Int) : List Nat :=
  write_zigzag_loop 5 (zigzag_bits value)

/-- The loop of `zigzag_int_size`, returning the final `retVal`. -/
def zigzag_size_loop : Nat → Nat → Nat → Nat
  | 0, _, retVal => retVal
  | fuel + 1, zigZagEncoded, retVal =>
    if zigZagEncoded &&& 0xFFFFFF80 ≠ 0 then
      zigzag_size_loop fuel (zigZagEncoded >>> 7) (retVal + 1)
    else retVal

/-- The value `zigzag_int_size(value)` returns. -/
def zigzag_int_size (value : Int) : Nat :=
  zigzag_size_loop 5 (zigzag_bits value) 0 + 1

/-- Outcome of `read_zigzag_int`. -/
inductive ReadResult where
  /-- `*ret = ret` and the returned cursor is the argument plus `consumed`. -/
  | ok (ret : Int) (consumed : Nat)
  /-- The function returned `NULL` (invalid encoding). -/
  | null
  /-- The function read past the end of the buffer. -/
  | fault
  deriving DecidableEq, Repr

/-- The expression `(int32_t)((-(result & 1)) ^ ((result >> 1) & 0x7FFFFFFFU))`. -/
def zigzag_decode (result : Nat) : Int :=
  to_i32 (((4294967296 - (result &&& 1)) % 4294967296) ^^^ ((result >>> 1) &&& 0x7FFFFFFF))

/-- The `while ((currentByte & 0x80) != 0)` loop of `read_zigzag_int` and its
epilogue; `bytes` is the memory at the cursor. -/
def read_zigzag_loop (bytes : List Nat) (currentByte read result shift : Nat) : ReadResult :=
  if currentByte &&& 0x80 ≠ 0 then
    match bytes with
    | [] => .fault
    | b :: bytes =>
      let currentByte := char_to_u32 b
      let read := read + 1
      let result := result ||| (((currentByte &&& 0x7F) <<< shift) % 4294967296)
      let shift := shift + 7
      if read > 5 then .null
      else read_zigzag_loop bytes currentByte read result shift
  else .ok (zigzag_decode result) read

/-- The function `read_zigzag_int(ptr, ret)` on the memory `bytes` at `ptr`. -/
def read_zigzag_int (bytes : List Nat) : ReadResult :=
  match bytes with
  | [] => .fault
  | b :: bytes => read_zigzag_loop bytes (char_to_u32 b) 1 (char_to_u32 b &&& 0x7F) 7

/-! ## Message tags and observable actions -/

/-- The `MsgType` tags of `ambrosia/client.h`.  The header is not part of
`ambrosia_client.c`, so the numeric values are parameters of the development. -/
structure MsgTypes where
  RPC : Nat
  AttachTo : Nat
  TakeCheckpoint : Nat
  RPCBatch : Nat
  Checkpoint : Nat
  InitialMessage : Nat
  TakeBecomingPrimaryCheckpoint : Nat
  deriving DecidableEq, Repr

/-- The tags are pairwise distinct (they label the cases of one `switch`) and
fit a non-negative `char`. -/
def MsgTypes.valid (M : MsgTypes) : Prop :=
  [M.RPC, M.AttachTo, M.TakeCheckpoint, M.RPCBatch, M.Checkpoint, M.InitialMessage,
    M.TakeBecomingPrimaryCheckpoint].Nodup ∧
  ∀ t ∈ [M.RPC, M.AttachTo, M.TakeCheckpoint, M.RPCBatch, M.Checkpoint, M.InitialMessage,
    M.TakeBecomingPrimaryCheckpoint], t < 128

instance (M : MsgTypes) : Decidable M.valid := by
  unfold MsgTypes.valid
  infer_instance

/-- Modelled from the spec: the header `ambrosia/client.h` that fixes the tag
numbers is missing; the spec only requires a closed set of distinct `u8` tags.
This is one such assignment, used to evaluate the code on concrete bytes. -/
def sample_tags : MsgTypes :=
  { RPC := 0, AttachTo := 1, TakeCheckpoint := 2, RPCBatch := 5, Checkpoint := 8,
    InitialMessage := 9, TakeBecomingPrimaryCheckpoint := 11 }

/-- What the client does that the outside can observe. -/
inductive Event where
  /-- The call `amb_dispatch_method(methodID, buf, argsLen)`; `args` are the
  bytes of the payload in `[buf, buf + argsLen)`. -/
  | dispatch (methodID : Int) (args : List Nat) (argsLen : Int)
  /-- The call `amb_socket_send_all(up, bytes, len, 0)` on the up socket. -/
  | send (bytes : List Nat)
  /-- The call `send_dummy_checkpoint(upfd)`. -/
  | dummy_checkpoint
  deriving DecidableEq, Repr

/-! ## Frame writers -/

/-- The bytes `amb_write_incoming_rpc(buf, methodID, fireForget, args, argsLen)`
stores at `buf`; `args` are the `argsLen` bytes copied by `memcpy`.  The
parameter `fireForget` is not used by the function body: the byte stored is the
constant `1`. -/
def amb_write_incoming_rpc (M : MsgTypes) (methodID : Int) (fireForget : Nat)
    (args : List Nat) : List Nat :=
  let argsLen : Int := args.length
  let methodIDSz : Int := zigzag_int_size methodID
  let totalSize := wrap32 (1 + 1 + methodIDSz + 1 + argsLen)
  let _ := fireForget
  write_zigzag_int totalSize ++ [M.RPC] ++ [0] ++ write_zigzag_int methodID ++ [1] ++ args

/-- The bytes `amb_write_outgoing_rpc_hdr(buf, dest, destLen, RPC_or_RetVal,
methodID, fireForget, argsLen)` stores at `buf`; `dest` are the `destLen` bytes
copied by `memcpy`. -/
def amb_write_outgoing_rpc_hdr (M : MsgTypes) (dest : List Nat) (RPC_or_RetVal : Nat)
    (methodID : Int) (fireForget : Nat) (argsLen : Int) : List Nat :=
  let destLen : Int := dest.length
  let totalSize := wrap32 (1 + zigzag_int_size destLen + destLen + 1
    + zigzag_int_size methodID + 1 + argsLen)
  write_zigzag_int totalSize ++ [M.RPC] ++ write_zigzag_int destLen ++ dest
    ++ [RPC_or_RetVal] ++ write_zigzag_int methodID ++ [fireForget]

/-- The bytes `amb_write_outgoing_rpc` stores at `buf`. -/
def amb_write_outgoing_rpc (M : MsgTypes) (dest : List Nat) (RPC_or_RetVal : Nat)
    (methodID : Int) (fireForget : Nat) (args : List Nat) : List Nat :=
  amb_write_outgoing_rpc_hdr M dest RPC_or_RetVal methodID fireForget args.length ++ args

/-- The two `amb_socket_send_all` calls of `amb_send_outgoing_rpc`: the header
serialised into `tempbuf`, then the argument bytes. -/
def amb_send_outgoing_rpc (M : MsgTypes) (dest : List Nat) (RPC_or_RetVal : Nat)
    (methodID : Int) (fireForget : Nat) (args : List Nat) : List Event :=
  let destLen : Int := dest.length
  let argsLen : Int := args.length
  let totalSize := wrap32 (1 + zigzag_int_size destLen + destLen + 1
    + zigzag_int_size methodID + 1 + argsLen)
  let tempbuf := write_zigzag_int totalSize ++ [M.RPC] ++ write_zigzag_int destLen ++ dest
    ++ [RPC_or_RetVal] ++ write_zigzag_int methodID ++ [fireForget]
  [.send tempbuf, .send args]

/-! ## Attach manager -/

/-- The C library `strlen` on the memory at `dest`: the number of bytes before
the first NUL, or `none` when the buffer ends before a NUL is found. -/
def strlen : List Nat → Option Nat
  | [] => none
  | b :: bs => if b = 0 then some 0 else (strlen bs).map (· + 1)

/-- Outcome of a procedure with effects: it returns, or it calls `abort()`, or
it runs into undefined behaviour (a read or write outside a buffer, a `NULL`
dereference).  `events` are the observable actions performed up to that point. -/
inductive Outcome (α : Type) where
  | done (events : List Event) (val : α)
  | abort (events : List Event)
  | fault (events : List Event)
  | out_of_fuel
  deriving DecidableEq, Repr

/-- The function `attach_if_needed(dest, destLen)`, from the value of the global
`g_attached`; `dest` is the memory at the pointer `dest`.  The result value is
the new `g_attached`.  `sendbuf` has 128 bytes. -/
def attach_if_needed (M : MsgTypes) (g_attached : Int) (dest : List Nat) (destLen : Int) :
    Outcome Int :=
  if g_attached = 0 ∧ destLen ≠ 0 then
    match strlen dest with
    | none => .fault []
    | some n =>
      let dest_len : Int := wrap32 n
      let sendbuf := write_zigzag_int (wrap32 (dest_len + 1)) ++ [M.AttachTo] ++ dest.take n
      if sendbuf.length > 128 then .fault []
      else .done [.send sendbuf] 1
  else .done [] g_attached

/-- The initial value of the global `g_attached`. -/
def g_attached_init : Int := 0

/-! ## Ingress: `amb_handle_rpc` and the message walk of `amb_normal_processing_loop` -/

/-- The locals of `amb_handle_rpc` at its `amb_dispatch_method` call. -/
structure RpcCall where
  rpc_or_ret : Nat
  methodID : Int
  fire_forget : Nat
  args : List Nat
  argsLen : Int
  deriving DecidableEq, Repr

/-- The dispatch call made for a parsed RPC. -/
def RpcCall.event (c : RpcCall) : Event := .dispatch c.methodID c.args c.argsLen

/-- Outcome of `amb_handle_rpc`. -/
inductive HandleResult where
  /-- The method was dispatched; the returned cursor is `buf + consumed`. -/
  | ok (call : RpcCall) (consumed : Nat)
  | abort
  | fault
  deriving DecidableEq, Repr

/-- The function `amb_handle_rpc(buf, len)`; `buf` is the payload memory from the
cursor to the end of the log record. -/
def amb_handle_rpc (buf : List Nat) (len : Int) : HandleResult :=
  if len < 0 then .abort
  else
    match buf with
    | [] => .fault
    | rpc_or_ret :: buf1 =>
      match read_zigzag_int buf1 with
      | .fault => .fault
      | .null => .fault
      | .ok methodID k =>
        match buf1.drop k with
        | [] => .fault
        | fire_forget :: buf2 =>
          let argsLen : Int := len - ((1 + k + 1 : Nat) : Int)
          if argsLen < 0 then .abort
          else
            .ok { rpc_or_ret := rpc_or_ret, methodID := methodID, fire_forget := fire_forget,
                  args := buf2.take argsLen.toNat, argsLen := argsLen }
              (1 + k + 1 + argsLen.toNat)

/-- The `for (int i=0; i < numMsgs; i++)` loop of the `RPCBatch` case; the first
argument is the number of iterations left.  The result value is the cursor and
the final `rawsize`. -/
def batch_loop (buf : List Nat) : Nat → Nat → Int → List Event → Outcome (Nat × Int)
  | 0, bufcur, rawsize, events => .done events (bufcur, rawsize)
  | n + 1, bufcur, rawsize, events =>
    match read_zigzag_int (buf.drop bufcur) with
    | .fault => .fault events
    | .null => .fault events
    | .ok msgsize k =>
      match buf.drop (bufcur + k) with
      | [] => .fault events
      | _type :: body =>
        match amb_handle_rpc body (wrap32 (msgsize - 1)) with
        | .abort => .abort events
        | .fault => .fault events
        | .ok call c =>
          batch_loop buf n (bufcur + k + 1 + c)
            (wrap32 (rawsize - ((k + 1 + c : Nat) : Int))) (events ++ [call.event])

/-- The `while (bufcur < limit)` loop of `amb_normal_processing_loop` over the
payload `buf` of one log record.  The first argument bounds the number of
iterations.  The result value is the final cursor. -/
def message_loop (M : MsgTypes) (buf : List Nat) : Nat → Nat → List Event → Outcome Nat
  | 0, _, _ => .out_of_fuel
  | fuel + 1, bufcur, events =>
    if bufcur < buf.length then
      match read_zigzag_int (buf.drop bufcur) with
      | .fault => .fault events
      | .null => .fault events
      | .ok rawsize k =>
        match buf.drop (bufcur + k) with
        | [] => .fault events
        | tag :: body =>
          let bufcur := bufcur + k + 1
          let rawsize := wrap32 (rawsize - 1)
          if tag = M.RPC then
            match amb_handle_rpc body rawsize with
            | .abort => .abort events
            | .fault => .fault events
            | .ok call c => message_loop M buf fuel (bufcur + c) (events ++ [call.event])
          else if tag = M.InitialMessage then
            message_loop M buf fuel bufcur events
          else if tag = M.RPCBatch then
            match read_zigzag_int body with
            | .fault => .fault events
            -- `numMsgs` stays -1, the batch loop is skipped, and the next
            -- iteration reads through the `NULL` cursor
            | .null => .fault events
            | .ok numMsgs k2 =>
              match batch_loop buf numMsgs.toNat (bufcur + k2) rawsize events with
              | .done events2 (bufcur2, _) => message_loop M buf fuel bufcur2 events2
              | .abort events2 => .abort events2
              | .fault events2 => .fault events2
              | .out_of_fuel => .out_of_fuel
          else if tag = M.TakeCheckpoint then
            message_loop M buf fuel bufcur (events ++ [.dummy_checkpoint])
          else .abort events
    else .done events bufcur

/-- One pass of the message walk of `amb_normal_processing_loop` over the payload
of a log record, from `bufcur = buf`.  Every iteration advances the cursor, so
`payloadsize + 1` iterations are never used up. -/
def amb_normal_processing_walk (M : MsgTypes) (buf : List Nat) : Outcome Nat :=
  message_loop M buf (buf.length + 1) 0 []

/-! ## Wire layouts (the data model of the protocol) -/

/-- An envelope `size, type, body` with `size = 1 + |body|`. -/
def envelope (type : Nat) (body : List Nat) : List Nat :=
  write_zigzag_int ((body.length : Int) + 1) ++ [type] ++ body

/-- An incoming RPC as it appears in a log record. -/
structure RpcMsg where
  reserved : Nat
  methodID : Int
  fireForget : Nat
  args : List Nat
  deriving DecidableEq, Repr

/-- The body `reserved, methodID, fireForget, args` of an incoming RPC. -/
def RpcMsg.body (m : RpcMsg) : List Nat :=
  [m.reserved] ++ write_zigzag_int m.methodID ++ [m.fireForget] ++ m.args

/-- The method identifier is an `int32_t` and the envelope size fits an `int`. -/
def RpcMsg.wf (m : RpcMsg) : Prop :=
  is_i32 m.methodID ∧ (m.body.length : Int) + 1 < 2147483648

instance (m : RpcMsg) : Decidable m.wf := by
  unfold RpcMsg.wf
  infer_instance

/-- The dispatch call a well-formed incoming RPC must cause. -/
def RpcMsg.event (m : RpcMsg) : Event :=
  .dispatch m.methodID m.args m.args.length

/-- The payload of a log record that holds the RPC envelopes of `msgs`, in order. -/
def rpc_payload (M : MsgTypes) : List RpcMsg → List Nat
  | [] => []
  | m :: ms => envelope M.RPC m.body ++ rpc_payload M ms

/-- The inner envelopes of an `RPCBatch`: each has its own type byte and the
body of an incoming RPC. -/
def batch_body : List (Nat × RpcMsg) → List Nat
  | [] => []
  | tm :: rest => envelope tm.1 tm.2.body ++ batch_body rest

/-- The dispatch calls a run of inner envelopes must cause. -/
def batch_events (inner : List (Nat × RpcMsg)) : List Event :=
  inner.map (fun tm => tm.2.event)

/-- An `RPCBatch` envelope with declared size `size`, declared message count
`|inner|` and the inner envelopes `inner`. -/
def batch_envelope (M : MsgTypes) (size : Int) (inner : List (Nat × RpcMsg)) : List Nat :=
  write_zigzag_int size ++ [M.RPCBatch] ++ write_zigzag_int inner.length ++ batch_body inner

/-! ## Call sequences of the attach manager -/

/-- The arguments of one `amb_send_outgoing_rpc` call besides the destination. -/
structure RpcSend where
  rpcOrRet : Nat
  methodID : Int
  fireForget : Nat
  args : List Nat
  deriving DecidableEq, Repr

/-- A run of outbound sends to the destination `D`, each made as
`attach_if_needed(D, len(D))` followed by `amb_send_outgoing_rpc` to `D`.  `D` is
held as a C string, so the memory at `dest` is `D` followed by a NUL.  The
arguments are the sends still to make, `g_attached`, and the actions so far. -/
def outbound_sends (M : MsgTypes) (D : List Nat) : List RpcSend → Int → List Event → Outcome Int
  | [], g_attached, events => .done events g_attached
  | c :: cs, g_attached, events =>
    match attach_if_needed M g_attached (D ++ [0]) D.length with
    | .done ev1 g1 =>
      outbound_sends M D cs g1
        (events ++ ev1 ++ amb_send_outgoing_rpc M D c.rpcOrRet c.methodID c.fireForget c.args)
    | .abort ev1 => .abort (events ++ ev1)
    | .fault ev1 => .fault (events ++ ev1)
    | .out_of_fuel => .out_of_fuel

/-- The socket sends of a run of `amb_send_outgoing_rpc` calls to `D`. -/
def rpc_send_events (M : MsgTypes) (D : List Nat) : List RpcSend → List Event
  | [] => []
  | c :: cs =>
    amb_send_outgoing_rpc M D c.rpcOrRet c.methodID c.fireForget c.args ++ rpc_send_events M D cs

/-- A sequence of `attach_if_needed(dest, destLen)` calls, given as pairs of the
memory at `dest` and `destLen`. -/
def attach_calls (M : MsgTypes) : List (List Nat × Int) → Int → List Event → Outcome Int
  | [], g_attached, events => .done events g_attached
  | c :: cs, g_attached, events =>
    match attach_if_needed M g_attached c.1 c.2 with
    | .done ev1 g1 => attach_calls M cs g1 (events ++ ev1)
    | .abort ev1 => .abort (events ++ ev1)
    | .fault ev1 => .fault (events ++ ev1)
    | .out_of_fuel => .out_of_fuel

/-! ## Startup protocol (`amb_startup_protocol`) -/

/-- The macro `STARTUP_ID` defined inside `amb_startup_protocol`. -/
def STARTUP_ID : Int := 32

/-- Where the parse of the first envelope of the startup record leads
(`amb_startup_protocol`, from `read_zigzag_int(buf, &msgsz)` to the end of the
`switch`). -/
inductive StartupBranch where
  /-- The case `TakeBecomingPrimaryCheckpoint`: `break`, control reaches the part
  that builds and sends the `InitialMessage`. -/
  | first_boot
  /-- The case `Checkpoint`: "RECOVER mode ... not implemented yet.", `abort()`. -/
  | recovery_not_implemented
  /-- The `default` case: "Protocol violation, did not expect this initial
  message type from server", `abort()`. -/
  | protocol_violation (msgType : Nat)
  /-- The branch `buf2 == NULL`: "failed to parse zig-zag int for log record
  size.", `abort()`. -/
  | malformed_varint
  /-- A read outside the payload buffer. -/
  | fault
  deriving DecidableEq, Repr

/-- The parse of the leading envelope of the startup payload `buf` and the
`switch(msgType)` of `amb_startup_protocol`. -/
def startup_first_envelope (M : MsgTypes) (buf : List Nat) : StartupBranch :=
  match read_zigzag_int buf with
  | .null => .malformed_varint
  | .fault => .fault
  | .ok _ k =>
    match buf.drop k with
    | [] => .fault
    | msgType :: _ =>
      if msgType = M.TakeBecomingPrimaryCheckpoint then .first_boot
      else if msgType = M.Checkpoint then .recovery_not_implemented
      else .protocol_violation msgType

/-- The function `amb_startup_protocol(upfd, downfd)` once the log header and
the `payloadSz` bytes of payload have been received into `buf = malloc(payloadSz)`.
On the first-boot branch the message is serialised into that same `buf`:
`memset(buf, 0, sizeof(buf))` clears `sizeof(char*)` = 8 bytes of it, then the size
varint, the type byte and the `msgsize` bytes of `msgbuf` are stored from `buf[0]`
on and `totalbytes` bytes of `buf` are sent.  A store behind `buf[payloadSz - 1]`
is reported as `fault`. -/
def amb_startup_protocol (M : MsgTypes) (payload : List Nat) : Outcome Unit :=
  match startup_first_envelope M payload with
  | .first_boot =>
    let payloadSz := payload.length
    if payloadSz < 8 then .fault []
    else
      let argsbuf := [5, 4, 3]
      let msgbuf := amb_write_incoming_rpc M STARTUP_ID 1 argsbuf
      let msgsize : Int := msgbuf.length
      let buf := write_zigzag_int (wrap32 (msgsize + 1)) ++ [M.InitialMessage] ++ msgbuf
      if buf.length > payloadSz then .fault []
      else .done [.send buf, .dummy_checkpoint] ()
  | .recovery_not_implemented => .abort []
  | .protocol_violation _ => .abort []
  | .malformed_varint => .abort []
  | .fault => .fault []

/-! ## Wire stream and varint layout -/

/-- The bytes a list of actions puts on the up socket through
`amb_socket_send_all`, in order. -/
def sent_bytes : List Event → List Nat
  | [] => []
  | .send bytes :: rest => bytes ++ sent_bytes rest
  | _ :: rest => sent_bytes rest

/-- The base-128 little-endian groups of `z`, as the data model words the varint
layout: as many 7-bit groups as `z` needs (at least one), least significant
first, with the high bit set on every byte except the last. -/
def base128_groups (z : Nat) : List Nat :=
  let n := Nat.log 128 z + 1
  (List.range n).map
    (fun i => if i + 1 < n then z / 128 ^ i % 128 + 128 else z / 128 ^ i % 128)

/-- An `RPCBatch` envelope as the data model lays it out: the size counts the
type byte and the body `numMsgs, inner envelopes`. -/
def rpc_batch (M : MsgTypes) (inner : List (Nat × RpcMsg)) : List Nat :=
  envelope M.RPCBatch (write_zigzag_int inner.length ++ batch_body inner)

/-! ## Arithmetic of the bit operations -/

theorem xor_mask32 (x : Nat) (h : x < 4294967296) : 4294967295 ^^^ x = 4294967295 - x := by
  apply Nat.eq_of_testBit_eq
  intro i
  have h1 : (4294967295 : Nat) = 2 ^ 32 - 1 := by norm_num
  have h2 : 4294967295 - x = 2 ^ 32 - (x + 1) := by omega
  have hx : x < 2 ^ 32 := by omega
  rw [Nat.testBit_xor, h2, Nat.testBit_two_pow_sub_succ hx, h1, Nat.testBit_two_pow_sub_one]
  by_cases hi : i < 32
  · simp [hi]
  · have : x.testBit i = false := by
      apply Nat.testBit_lt_two_pow
      calc x < 2 ^ 32 := hx
        _ ≤ 2 ^ i := Nat.pow_le_pow_right (by norm_num) (by omega)
    simp [hi, this]

theorem and_hi_mask (z : Nat) (h : z < 4294967296) :
    z &&& 0xFFFFFF80 ≠ 0 ↔ 128 ≤ z := by
  have key : z &&& 0xFFFFFF80 = 128 * (z / 128) := by
    apply Nat.eq_of_testBit_eq
    intro i
    have h1 : (0xFFFFFF80 : Nat) = 2 ^ 7 * (2 ^ 25 - 1) := by norm_num
    have h2 : (128 : Nat) = 2 ^ 7 := by norm_num
    rw [Nat.testBit_and, h1, h2, Nat.testBit_mul_pow_two, Nat.testBit_mul_pow_two,
      Nat.testBit_two_pow_sub_one]
    by_cases hi : 7 ≤ i
    · simp only [hi, decide_True, Bool.true_and]
      rw [← Nat.shiftRight_eq_div_pow, Nat.testBit_shiftRight]
      have e : 7 + (i - 7) = i := by omega
      rw [e]
      by_cases hj : i - 7 < 25
      · simp [hj]
      · have : z.testBit i = false := by
          apply Nat.testBit_lt_two_pow
          calc z < 2 ^ 32 := by omega
            _ ≤ 2 ^ i := Nat.pow_le_pow_right (by norm_num) (by omega)
        simp [hj, this]
    · simp [hi]
  rw [key]
  omega

set_option maxRecDepth 20000 in
theorem or_high_bit (z : Nat) : (z ||| 0x80) &&& 0xFF = z % 128 + 128 := by
  have h255 : (0xFF : Nat) = 2 ^ 8 - 1 := by norm_num
  have small : ∀ x, x < 256 → x ||| 128 = x % 128 + 128 := by decide
  rw [Nat.and_distrib_right, h255, Nat.and_pow_two_sub_one_eq_mod,
    Nat.and_pow_two_sub_one_eq_mod]
  have := small (z % 2 ^ 8) (Nat.mod_lt _ (by norm_num))
  norm_num at this ⊢
  omega

theorem char_and_7F (b : Nat) : char_to_u32 b &&& 0x7F = b % 128 := by
  have h : (0x7F : Nat) = 2 ^ 7 - 1 := by norm_num
  rw [h, Nat.and_pow_two_sub_one_eq_mod]
  unfold char_to_u32
  split <;> omega

set_option maxRecDepth 20000 in
theorem char_and_80 (b : Nat) (hb : b < 256) : char_to_u32 b &&& 0x80 ≠ 0 ↔ 128 ≤ b := by
  have small : ∀ x, x < 256 → (x &&& 128 ≠ 0 ↔ 128 ≤ x) := by decide
  have e : char_to_u32 b &&& 0x80 = (char_to_u32 b % 2 ^ 8) &&& 128 := by
    rw [← Nat.and_pow_two_sub_one_eq_mod, Nat.and_assoc]
    rfl
  have m : char_to_u32 b % 2 ^ 8 = b := by
    unfold char_to_u32
    split <;> omega
  rw [e, m]
  exact small b hb

theorem or_shiftLeft_of_lt (r g s : Nat) (hr : r < 2 ^ s) : r ||| (g <<< s) = r + g * 2 ^ s := by
  rw [Nat.shiftLeft_eq, Nat.or_comm, Nat.mul_comm g, ← Nat.mul_add_lt_is_or hr]
  omega

theorem zigzag_bits_lt (v : Int) : zigzag_bits v < 4294967296 := by
  unfold zigzag_bits
  have h1 : to_u32 v <<< 1 % 4294967296 < 2 ^ 32 := by
    have := Nat.mod_lt (to_u32 v <<< 1) (show 4294967296 > 0 by norm_num)
    omega
  have h2 : (if 2147483648 ≤ to_u32 v then 4294967295 else 0) < 2 ^ 32 := by
    split <;> norm_num
  have := Nat.xor_lt_two_pow h1 h2
  omega

theorem zigzag_bits_eq (v : Int) (hv : is_i32 v) :
    (zigzag_bits v : Int) = if 0 ≤ v then 2 * v else -2 * v - 1 := by
  unfold zigzag_bits to_u32
  unfold is_i32 at hv
  rw [Nat.shiftLeft_eq]
  by_cases h : 0 ≤ v
  · have e : (v % 4294967296).toNat = v.toNat := by omega
    have c : ¬ (2147483648 ≤ v.toNat) := by omega
    rw [e, if_neg c, if_pos h, Nat.xor_zero]
    omega
  · have c : 2147483648 ≤ (v % 4294967296).toNat := by omega
    rw [if_pos c, if_neg h, Nat.xor_comm, xor_mask32 _ (Nat.mod_lt _ (by norm_num))]
    omega

theorem zigzag_decode_bits (v : Int) (hv : is_i32 v) : zigzag_decode (zigzag_bits v) = v := by
  have hlt := zigzag_bits_lt v
  have heq := zigzag_bits_eq v hv
  unfold is_i32 at hv
  generalize zigzag_bits v = r at hlt heq
  unfold zigzag_decode to_i32
  have h31 : (0x7FFFFFFF : Nat) = 2 ^ 31 - 1 := by norm_num
  rw [Nat.and_one_is_mod, Nat.shiftRight_eq_div_pow, h31, Nat.and_pow_two_sub_one_eq_mod]
  by_cases h : 0 ≤ v
  · rw [if_pos h] at heq
    have e : r % 2 = 0 := by omega
    rw [e]
    norm_num
    have e2 : r / 2 % 2147483648 % 4294967296 = r / 2 := by omega
    rw [e2]
    split <;> omega
  · rw [if_neg h] at heq
    have e : r % 2 = 1 := by omega
    rw [e]
    norm_num
    rw [xor_mask32 _ (by omega)]
    split <;> omega

/-! ## The varint loops in arithmetic form -/

theorem write_zigzag_loop_succ (fuel z : Nat) (hz : z < 4294967296) :
    write_zigzag_loop (fuel + 1) z =
      if 128 ≤ z then (z % 128 + 128) :: write_zigzag_loop fuel (z / 128) else [z] := by
  rw [write_zigzag_loop]
  simp only [and_hi_mask z hz, or_high_bit, Nat.shiftRight_eq_div_pow]
  split
  · rfl
  · have : z % 256 = z := by omega
    rw [this]

theorem zigzag_size_loop_succ (fuel z retVal : Nat) (hz : z < 4294967296) :
    zigzag_size_loop (fuel + 1) z retVal =
      if 128 ≤ z then zigzag_size_loop fuel (z / 128) (retVal + 1) else retVal := by
  rw [zigzag_size_loop]
  simp only [and_hi_mask z hz, Nat.shiftRight_eq_div_pow]

theorem read_zigzag_loop_stop (bytes : List Nat) (b read result shift : Nat) (hb : b < 128) :
    read_zigzag_loop bytes (char_to_u32 b) read result shift = .ok (zigzag_decode result) read := by
  rw [read_zigzag_loop.eq_def]
  have : ¬ (char_to_u32 b &&& 0x80 ≠ 0) := by
    rw [char_and_80 b (by omega)]
    omega
  rw [if_neg this]

theorem read_zigzag_loop_cont (bytes : List Nat) (b c read result shift : Nat)
    (hb : 128 ≤ b) (hb2 : b < 256) (hr : read + 1 ≤ 5) :
    read_zigzag_loop (c :: bytes) (char_to_u32 b) read result shift =
      read_zigzag_loop bytes (char_to_u32 c) (read + 1)
        (result ||| (((c % 128) <<< shift) % 4294967296)) (shift + 7) := by
  rw [read_zigzag_loop]
  have : char_to_u32 b &&& 0x80 ≠ 0 := by
    rw [char_and_80 b hb2]
    omega
  rw [if_pos this]
  simp only [char_and_7F]
  rw [if_neg (by omega)]

theorem acc_step (r g s : Nat) (hr : r < 2 ^ s) (hg : g * 2 ^ s < 4294967296) :
    r ||| ((g <<< s) % 4294967296) = r + g * 2 ^ s := by
  rw [Nat.shiftLeft_eq, Nat.mod_eq_of_lt hg, ← or_shiftLeft_of_lt r g s hr, Nat.shiftLeft_eq]

/-- Reading back what the write loop stored for a 32-bit pattern: the read loop
rebuilds the pattern and stops after exactly the bytes that were written,
whatever follows them in memory. -/
theorem read_write_loop (z : Nat) (hz : z < 4294967296) (rest : List Nat) :
    read_zigzag_int (write_zigzag_loop 5 z ++ rest)
        = .ok (zigzag_decode z) (zigzag_size_loop 5 z 0 + 1) ∧
      (write_zigzag_loop 5 z).length = zigzag_size_loop 5 z 0 + 1 := by
  have q1 : z / 128 < 4294967296 := by omega
  have q2 : z / 128 / 128 < 4294967296 := by omega
  have q3 : z / 128 / 128 / 128 < 4294967296 := by omega
  have q4 : z / 128 / 128 / 128 / 128 < 4294967296 := by omega
  have m : ∀ x : Nat, (x % 128 + 128) % 128 = x % 128 := by intro x; omega
  rw [write_zigzag_loop_succ _ _ hz, zigzag_size_loop_succ _ _ _ hz]
  by_cases h1 : 128 ≤ z
  swap
  · rw [if_neg h1, if_neg h1]
    simp only [List.cons_append, List.nil_append, read_zigzag_int, char_and_7F]
    rw [read_zigzag_loop_stop _ _ _ _ _ (by omega)]
    have : z % 128 = z := by omega
    simp [this]
  rw [if_pos h1, if_pos h1, write_zigzag_loop_succ _ _ q1, zigzag_size_loop_succ _ _ _ q1]
  by_cases h2 : 128 ≤ z / 128
  swap
  · rw [if_neg h2, if_neg h2]
    simp only [List.cons_append, List.nil_append, read_zigzag_int, char_and_7F, m]
    rw [read_zigzag_loop_cont _ _ _ _ _ _ (by omega) (by omega) (by omega),
      read_zigzag_loop_stop _ _ _ _ _ (by omega),
      acc_step _ _ 7 (by omega) (by omega)]
    have e : z % 128 + z / 128 % 128 * 2 ^ 7 = z := by omega
    rw [e]
    simp
  rw [if_pos h2, if_pos h2, write_zigzag_loop_succ _ _ q2, zigzag_size_loop_succ _ _ _ q2]
  by_cases h3 : 128 ≤ z / 128 / 128
  swap
  · rw [if_neg h3, if_neg h3]
    simp only [List.cons_append, List.nil_append, read_zigzag_int, char_and_7F, m]
    rw [read_zigzag_loop_cont _ _ _ _ _ _ (by omega) (by omega) (by omega),
      read_zigzag_loop_cont _ _ _ _ _ _ (by omega) (by omega) (by omega),
      read_zigzag_loop_stop _ _ _ _ _ (by omega),
      acc_step _ _ 7 (by omega) (by omega), m,
      acc_step _ _ 14 (by omega) (by omega)]
    have e : z % 128 + z / 128 % 128 * 2 ^ 7 + z / 128 / 128 % 128 * 2 ^ 14 = z := by omega
    rw [e]
    simp
  rw [if_pos h3, if_pos h3, write_zigzag_loop_succ _ _ q3, zigzag_size_loop_succ _ _ _ q3]
  by_cases h4 : 128 ≤ z / 128 / 128 / 128
  swap
  · rw [if_neg h4, if_neg h4]
    simp only [List.cons_append, List.nil_append, read_zigzag_int, char_and_7F, m]
    rw [read_zigzag_loop_cont _ _ _ _ _ _ (by omega) (by omega) (by omega),
      read_zigzag_loop_cont _ _ _ _ _ _ (by omega) (by omega) (by omega),
      read_zigzag_loop_cont _ _ _ _ _ _ (by omega) (by omega) (by omega),
      read_zigzag_loop_stop _ _ _ _ _ (by omega),
      acc_step _ _ 7 (by omega) (by omega), m,
      acc_step _ _ 14 (by omega) (by omega), m,
      acc_step _ _ 21 (by omega) (by omega)]
    have e : z % 128 + z / 128 % 128 * 2 ^ 7 + z / 128 / 128 % 128 * 2 ^ 14
        + z / 128 / 128 / 128 % 128 * 2 ^ 21 = z := by omega
    rw [e]
    simp
  rw [if_pos h4, if_pos h4, write_zigzag_loop_succ _ _ q4, zigzag_size_loop_succ _ _ _ q4]
  have h5 : ¬ (128 ≤ z / 128 / 128 / 128 / 128) := by omega
  rw [if_neg h5, if_neg h5]
  simp only [List.cons_append, List.nil_append, read_zigzag_int, char_and_7F, m]
  rw [read_zigzag_loop_cont _ _ _ _ _ _ (by omega) (by omega) (by omega),
    read_zigzag_loop_cont _ _ _ _ _ _ (by omega) (by omega) (by omega),
    read_zigzag_loop_cont _ _ _ _ _ _ (by omega) (by omega) (by omega),
    read_zigzag_loop_cont _ _ _ _ _ _ (by omega) (by omega) (by omega),
    read_zigzag_loop_stop _ _ _ _ _ (by omega),
    acc_step _ _ 7 (by omega) (by omega), m,
    acc_step _ _ 14 (by omega) (by omega), m,
    acc_step _ _ 21 (by omega) (by omega), m,
    acc_step _ _ 28 (by omega) (by omega)]
  have e : z % 128 + z / 128 % 128 * 2 ^ 7 + z / 128 / 128 % 128 * 2 ^ 14
      + z / 128 / 128 / 128 % 128 * 2 ^ 21 + z / 128 / 128 / 128 / 128 % 128 * 2 ^ 28 = z := by
    omega
  rw [e]
  simp

/-- The iteration bound of `write_zigzag_loop` is never the reason the loop
stops: any larger bound gives the same bytes. -/
theorem write_zigzag_loop_fuel (n : Nat) :
    ∀ z k, z < 128 ^ (n + 1) → z < 4294967296 →
      write_zigzag_loop (n + 1 + k) z = write_zigzag_loop (n + 1) z := by
  induction n with
  | zero =>
    intro z k h1 h2
    have e : 0 + 1 + k = k + 1 := by omega
    rw [e, write_zigzag_loop_succ _ _ h2, write_zigzag_loop_succ _ _ h2]
    have : ¬ (128 ≤ z) := by omega
    rw [if_neg this, if_neg this]
  | succ n ih =>
    intro z k h1 h2
    have e : n + 1 + 1 + k = (n + 1 + k) + 1 := by omega
    rw [e, write_zigzag_loop_succ _ _ h2, write_zigzag_loop_succ _ _ h2]
    have h3 : z / 128 < 128 ^ (n + 1) := by
      rw [Nat.div_lt_iff_lt_mul (by norm_num)]
      calc z < 128 ^ (n + 1 + 1) := h1
        _ = 128 ^ (n + 1) * 128 := by rw [Nat.pow_succ]
    rw [ih (z / 128) k h3 (by omega)]

theorem write_zigzag_int_fuel (value : Int) (k : Nat) :
    write_zigzag_loop (5 + k) (zigzag_bits value) = write_zigzag_int value := by
  have h := zigzag_bits_lt value
  exact write_zigzag_loop_fuel 4 _ k (by norm_num; omega) h

theorem write_zigzag_int_length (value : Int) :
    (write_zigzag_int value).length = zigzag_int_size value :=
  (read_write_loop _ (zigzag_bits_lt value) []).2

theorem read_write_zigzag (value : Int) (hv : is_i32 value) (rest : List Nat) :
    read_zigzag_int (write_zigzag_int value ++ rest) = .ok value (zigzag_int_size value) := by
  have h := (read_write_loop _ (zigzag_bits_lt value) rest).1
  rw [zigzag_decode_bits value hv] at h
  exact h

theorem zigzag_int_size_pos (value : Int) : 1 ≤ zigzag_int_size value := by
  unfold zigzag_int_size
  omega

theorem zigzag_size_loop_le (fuel : Nat) : ∀ z r, zigzag_size_loop fuel z r ≤ r + fuel := by
  induction fuel with
  | zero => intro z r; simp [zigzag_size_loop]
  | succ n ih =>
    intro z r
    rw [zigzag_size_loop]
    split
    · have := ih (z >>> 7) (r + 1)
      omega
    · omega

theorem zigzag_int_size_le (value : Int) : zigzag_int_size value ≤ 6 := by
  unfold zigzag_int_size
  have := zigzag_size_loop_le 5 (zigzag_bits value) 0
  omega

theorem read_zigzag_loop_null (bytes : List Nat) (b c result shift : Nat)
    (hb : 128 ≤ b) (hb2 : b < 256) :
    read_zigzag_loop (c :: bytes) (char_to_u32 b) 5 result shift = .null := by
  rw [read_zigzag_loop]
  have : char_to_u32 b &&& 0x80 ≠ 0 := by
    rw [char_and_80 b hb2]
    omega
  rw [if_pos this]
  simp

set_option maxRecDepth 20000 in
theorem byte_high_bit (b : Nat) (hb : b < 256) : b &&& 0x80 ≠ 0 ↔ 128 ≤ b := by
  have small : ∀ x, x < 256 → (x &&& 128 ≠ 0 ↔ 128 ≤ x) := by decide
  exact small b hb

theorem read_six_continuation (b0 b1 b2 b3 b4 b5 : Nat) (rest : List Nat)
    (h0 : 128 ≤ b0 ∧ b0 < 256) (h1 : 128 ≤ b1 ∧ b1 < 256) (h2 : 128 ≤ b2 ∧ b2 < 256)
    (h3 : 128 ≤ b3 ∧ b3 < 256) (h4 : 128 ≤ b4 ∧ b4 < 256) :
    read_zigzag_int (b0 :: b1 :: b2 :: b3 :: b4 :: b5 :: rest) = .null := by
  simp only [read_zigzag_int]
  rw [read_zigzag_loop_cont _ _ _ _ _ _ h0.1 h0.2 (by omega),
    read_zigzag_loop_cont _ _ _ _ _ _ h1.1 h1.2 (by omega),
    read_zigzag_loop_cont _ _ _ _ _ _ h2.1 h2.2 (by omega),
    read_zigzag_loop_cont _ _ _ _ _ _ h3.1 h3.2 (by omega),
    read_zigzag_loop_null _ _ _ _ _ h4.1 h4.2]


theorem six_bytes (bytes : List Nat) (h6 : 6 ≤ bytes.length) :
    ∃ b0 b1 b2 b3 b4 b5 rest, bytes = b0 :: b1 :: b2 :: b3 :: b4 :: b5 :: rest := by
  match bytes, h6 with
  | b0 :: b1 :: b2 :: b3 :: b4 :: b5 :: rest, _ => exact ⟨_, _, _, _, _, _, _, rfl⟩
  | [], h => simp at h
  | [_], h => simp at h
  | [_, _], h => simp at h
  | [_, _, _], h => simp at h
  | [_, _, _, _], h => simp at h
  | [_, _, _, _, _], h => simp at h

/-! ## Varint codec: round trip and rejection -/

/-- C1 (varint round trip).  For every 32-bit signed `v`, `read_zigzag_int` on
the bytes written by `write_zigzag_int(v)` (whatever follows them in memory)
succeeds, returns `v` and consumes exactly `zigzag_int_size(v)` bytes, and the
number of bytes written is `zigzag_int_size(v)`. -/
theorem varint_round_trip (v : Int) (hv : is_i32 v) (rest : List Nat) :
    read_zigzag_int (write_zigzag_int v ++ rest) = .ok v (zigzag_int_size v) ∧
      (write_zigzag_int v).length = zigzag_int_size v :=
  ⟨read_write_zigzag v hv rest, write_zigzag_int_length v⟩

theorem varint_round_trip_witness :
    is_i32 (-300) ∧
      (read_zigzag_int (write_zigzag_int (-300) ++ [7]) = .ok (-300) (zigzag_int_size (-300)) ∧
        (write_zigzag_int (-300)).length = zigzag_int_size (-300)) :=
  ⟨by decide, varint_round_trip (-300) (by decide) [7]⟩

/-- C2 (varint rejection).  On every buffer whose first six bytes all carry the
continuation bit, `read_zigzag_int` returns `NULL`; and it returns `NULL` in
the same way on the buffer cut after its sixth byte, where a read at index 6 or
beyond would leave the buffer: no seventh byte is read. -/
theorem varint_rejection (bytes : List Nat) (h6 : 6 ≤ bytes.length)
    (hc : ∀ b ∈ bytes.take 6, b < 256 ∧ b &&& 0x80 ≠ 0) :
    read_zigzag_int bytes = .null ∧ read_zigzag_int (bytes.take 6) = .null := by
  obtain ⟨b0, b1, b2, b3, b4, b5, rest, rfl⟩ := six_bytes bytes h6
  have hb : ∀ b ∈ [b0, b1, b2, b3, b4, b5], 128 ≤ b ∧ b < 256 := by
    intro b hmem
    have h := hc b (by simpa using hmem)
    exact ⟨(byte_high_bit b h.1).1 h.2, h.1⟩
  have e : (b0 :: b1 :: b2 :: b3 :: b4 :: b5 :: rest).take 6 = [b0, b1, b2, b3, b4, b5] := by
    simp
  rw [e]
  exact ⟨read_six_continuation b0 b1 b2 b3 b4 b5 rest (hb b0 (by simp)) (hb b1 (by simp))
      (hb b2 (by simp)) (hb b3 (by simp)) (hb b4 (by simp)),
    read_six_continuation b0 b1 b2 b3 b4 b5 [] (hb b0 (by simp)) (hb b1 (by simp))
      (hb b2 (by simp)) (hb b3 (by simp)) (hb b4 (by simp))⟩

theorem varint_rejection_witness :
    6 ≤ [128, 255, 129, 200, 130, 128, 1, 2].length ∧
      (∀ b ∈ [128, 255, 129, 200, 130, 128, 1, 2].take 6, b < 256 ∧ b &&& 0x80 ≠ 0) ∧
      (read_zigzag_int [128, 255, 129, 200, 130, 128, 1, 2] = .null ∧
        read_zigzag_int ([128, 255, 129, 200, 130, 128, 1, 2].take 6) = .null) :=
  ⟨by decide, by decide,
    varint_rejection [128, 255, 129, 200, 130, 128, 1, 2] (by decide) (by decide)⟩

/-! ## Frames -/

theorem wrap32_of_i32 (v : Int) (hv : is_i32 v) : wrap32 v = v := by
  unfold is_i32 at hv
  unfold wrap32 to_i32 to_u32
  split <;> omega

theorem is_i32_wrap32 (v : Int) : is_i32 (wrap32 v) := by
  unfold is_i32 wrap32 to_i32 to_u32
  split <;> omega

theorem is_i32_of_nat (n : Nat) (h : (n : Int) < 2147483648) : is_i32 (n : Int) := by
  unfold is_i32
  omega

theorem drop_write_zigzag (v : Int) (rest : List Nat) :
    (write_zigzag_int v ++ rest).drop (zigzag_int_size v) = rest := by
  rw [← write_zigzag_int_length v]
  exact List.drop_left _ _

/-- The RPC handler on the body `reserved, methodID, fireForget, args` of an
incoming RPC, called with the exact body length. -/
theorem amb_handle_rpc_body (r ff : Nat) (methodID : Int) (args rest : List Nat)
    (hm : is_i32 methodID) (len : Int)
    (hlen : len = ((1 + zigzag_int_size methodID + 1 + args.length : Nat) : Int)) :
    amb_handle_rpc (r :: (write_zigzag_int methodID ++ ff :: (args ++ rest))) len =
      .ok { rpc_or_ret := r, methodID := methodID, fire_forget := ff, args := args,
            argsLen := args.length }
        (1 + zigzag_int_size methodID + 1 + args.length) := by
  unfold amb_handle_rpc
  have h0 : ¬ (len < 0) := by omega
  rw [if_neg h0]
  simp only [read_write_zigzag methodID hm, drop_write_zigzag]
  have e : len - ((1 + zigzag_int_size methodID + 1 : Nat) : Int) = (args.length : Int) := by
    omega
  rw [e]
  simp

theorem write_zigzag_int_wrap32 (v : Int) : write_zigzag_int (wrap32 v) = write_zigzag_int v := by
  have e : to_u32 (wrap32 v) = to_u32 v := by
    unfold wrap32 to_i32 to_u32
    split <;> omega
  unfold write_zigzag_int zigzag_bits
  rw [e]

theorem RpcMsg.body_length (m : RpcMsg) :
    m.body.length = 1 + zigzag_int_size m.methodID + 1 + m.args.length := by
  simp [RpcMsg.body, write_zigzag_int_length]
  omega

theorem envelope_length (type : Nat) (body : List Nat) :
    (envelope type body).length = zigzag_int_size ((body.length : Int) + 1) + 1 + body.length := by
  simp [envelope, write_zigzag_int_length]
  omega

theorem lt_length_of_drop_eq_cons {buf : List Nat} {pos : Nat} {b : Nat} {l : List Nat}
    (h : buf.drop pos = b :: l) : pos < buf.length := by
  by_contra hc
  have : buf.drop pos = [] := List.drop_eq_nil_of_le (by omega)
  rw [this] at h
  cases h

theorem drop_add_of_drop_eq {buf : List Nat} {pos : Nat} {l1 l2 : List Nat}
    (h : buf.drop pos = l1 ++ l2) : buf.drop (pos + l1.length) = l2 := by
  have : buf.drop (pos + l1.length) = (buf.drop pos).drop l1.length := by
    rw [List.drop_drop]
  rw [this, h]
  exact List.drop_left _ _

theorem add_le_length_of_drop_eq {buf : List Nat} {pos : Nat} {l1 l2 : List Nat}
    (h : buf.drop pos = l1 ++ l2) (hp : pos ≤ buf.length) : pos + l1.length ≤ buf.length := by
  have := congrArg List.length h
  simp at this
  omega

/-- One iteration of the message walk on a well-formed RPC envelope: the method
is dispatched and the cursor moves to the end of the envelope. -/
theorem message_loop_rpc (M : MsgTypes) (buf : List Nat) (fuel pos : Nat) (ev : List Event)
    (m : RpcMsg) (hw : m.wf) (rest : List Nat)
    (hdrop : buf.drop pos = envelope M.RPC m.body ++ rest) :
    message_loop M buf (fuel + 1) pos ev =
      message_loop M buf fuel (pos + (envelope M.RPC m.body).length) (ev ++ [m.event]) := by
  have hsz : is_i32 ((m.body.length : Int) + 1) := by
    have := hw.2
    unfold is_i32
    omega
  have hd1 : buf.drop pos =
      write_zigzag_int ((m.body.length : Int) + 1) ++ (M.RPC :: (m.body ++ rest)) := by
    rw [hdrop]
    simp [envelope]
  have hlt : pos < buf.length := by
    have hne : write_zigzag_int ((m.body.length : Int) + 1) ≠ [] := by
      intro h
      have := write_zigzag_int_length ((m.body.length : Int) + 1)
      rw [h] at this
      have := zigzag_int_size_pos ((m.body.length : Int) + 1)
      simp at *
      omega
    obtain ⟨b, l, hbl⟩ := List.exists_cons_of_ne_nil hne
    rw [hbl] at hd1
    exact lt_length_of_drop_eq_cons hd1
  have hd2 : buf.drop (pos + zigzag_int_size ((m.body.length : Int) + 1)) =
      M.RPC :: (m.body ++ rest) := by
    rw [← write_zigzag_int_length]
    exact drop_add_of_drop_eq hd1
  rw [message_loop, if_pos hlt, hd1, read_write_zigzag _ hsz]
  simp only [hd2]
  have hraw : wrap32 ((m.body.length : Int) + 1 - 1) = (m.body.length : Int) := by
    rw [wrap32_of_i32]
    · omega
    · unfold is_i32 at *
      omega
  rw [hraw]
  have hb : m.body ++ rest =
      m.reserved :: (write_zigzag_int m.methodID ++ m.fireForget :: (m.args ++ rest)) := by
    simp [RpcMsg.body]
  rw [hb, amb_handle_rpc_body m.reserved m.fireForget m.methodID m.args rest hw.1 _
    (by rw [RpcMsg.body_length])]
  simp only [if_true]
  have e1 : pos + zigzag_int_size ((m.body.length : Int) + 1) + 1 +
      (1 + zigzag_int_size m.methodID + 1 + m.args.length) =
      pos + (envelope M.RPC m.body).length := by
    rw [envelope_length, RpcMsg.body_length]
    omega
  rw [e1]
  rfl

theorem rpc_payload_length_ge (M : MsgTypes) (msgs : List RpcMsg) :
    msgs.length ≤ (rpc_payload M msgs).length := by
  induction msgs with
  | nil => simp [rpc_payload]
  | cons m ms ih =>
    simp only [rpc_payload, List.length_cons, List.length_append, envelope_length]
    omega

/-- The message walk over a run of well-formed RPC envelopes that ends the
payload: one dispatch per envelope, in order, and the loop exits at the limit. -/
theorem message_loop_rpcs (M : MsgTypes) (buf : List Nat) :
    ∀ (msgs : List RpcMsg) (fuel pos : Nat) (ev : List Event),
      (∀ m ∈ msgs, m.wf) → msgs.length < fuel → buf.drop pos = rpc_payload M msgs →
      pos ≤ buf.length →
      message_loop M buf fuel pos ev = .done (ev ++ msgs.map RpcMsg.event) buf.length := by
  intro msgs
  induction msgs with
  | nil =>
    intro fuel pos ev _ hf hd hp
    obtain ⟨f, rfl⟩ : ∃ f, fuel = f + 1 := ⟨fuel - 1, by simp at hf; omega⟩
    have hlen := congrArg List.length hd
    simp [rpc_payload] at hlen
    have hpos : pos = buf.length := by omega
    rw [message_loop, if_neg (by omega), hpos]
    simp
  | cons m ms ih =>
    intro fuel pos ev hw hf hd hp
    obtain ⟨f, rfl⟩ : ∃ f, fuel = f + 1 := ⟨fuel - 1, by simp at hf; omega⟩
    rw [rpc_payload] at hd
    rw [message_loop_rpc M buf f pos ev m (hw m (by simp)) _ hd,
      ih f _ _ (fun x hx => hw x (by simp [hx])) (by simp at hf; omega)
        (drop_add_of_drop_eq hd) (add_le_length_of_drop_eq hd hp)]
    simp

/-! ## Incoming and outgoing frames -/

/-- The frame written by `amb_write_incoming_rpc(methodID, fireForget, args)`,
parsed the way the ingress path does: the size varint decodes to the frame
length behind it, the type byte is `RPC`, and `amb_handle_rpc` on the body
recovers `methodID` and `args`; the fire-and-forget byte it recovers is always
`1`, whatever `fireForget` was passed. -/
theorem incoming_rpc_frame_parse (M : MsgTypes) (methodID : Int) (fireForget : Nat)
    (args : List Nat) (hm : is_i32 methodID)
    (hs : ((1 + 1 + zigzag_int_size methodID + 1 + args.length : Nat) : Int) < 2147483648) :
    ∃ size k body,
      read_zigzag_int (amb_write_incoming_rpc M methodID fireForget args) = .ok size k ∧
      (amb_write_incoming_rpc M methodID fireForget args).drop k = M.RPC :: body ∧
      (size : Int) - 1 = body.length ∧
      amb_handle_rpc body (wrap32 (size - 1)) =
        .ok { rpc_or_ret := 0, methodID := methodID, fire_forget := 1, args := args,
              argsLen := args.length } body.length := by
  have hsz : is_i32 ((1 : Int) + 1 + zigzag_int_size methodID + 1 + args.length) := by
    unfold is_i32
    omega
  have hframe : amb_write_incoming_rpc M methodID fireForget args =
      write_zigzag_int ((1 : Int) + 1 + zigzag_int_size methodID + 1 + args.length) ++
        (M.RPC :: (0 :: (write_zigzag_int methodID ++ 1 :: args))) := by
    simp [amb_write_incoming_rpc, write_zigzag_int_wrap32]
  have hlen : (0 :: (write_zigzag_int methodID ++ 1 :: args)).length =
      1 + zigzag_int_size methodID + 1 + args.length := by
    simp [write_zigzag_int_length]
    omega
  refine ⟨(1 : Int) + 1 + zigzag_int_size methodID + 1 + args.length,
    zigzag_int_size ((1 : Int) + 1 + zigzag_int_size methodID + 1 + args.length),
    0 :: (write_zigzag_int methodID ++ 1 :: args), ?_, ?_, ?_, ?_⟩
  · rw [hframe, read_write_zigzag _ hsz]
  · rw [hframe, drop_write_zigzag]
  · rw [hlen]
    push_cast
    omega
  · rw [hlen]
    have h := amb_handle_rpc_body 0 1 methodID args [] hm
      (wrap32 ((1 : Int) + 1 + zigzag_int_size methodID + 1 + args.length - 1)) (by
        rw [wrap32_of_i32]
        · push_cast
          omega
        · unfold is_i32 at *
          omega)
    simpa using h

theorem incoming_rpc_frame_parse_witness :
    is_i32 7 ∧ ((1 + 1 + zigzag_int_size 7 + 1 + [9].length : Nat) : Int) < 2147483648 ∧
    ∃ size k body,
      read_zigzag_int (amb_write_incoming_rpc sample_tags 7 0 [9]) = .ok size k ∧
      (amb_write_incoming_rpc sample_tags 7 0 [9]).drop k = sample_tags.RPC :: body ∧
      (size : Int) - 1 = body.length ∧
      amb_handle_rpc body (wrap32 (size - 1)) =
        .ok { rpc_or_ret := 0, methodID := 7, fire_forget := 1, args := [9],
              argsLen := ([9] : List Nat).length } body.length :=
  ⟨by decide, by decide, incoming_rpc_frame_parse sample_tags 7 0 [9] (by decide) (by decide)⟩

/-- C3 (incoming-RPC frame round trip) at the input `methodID = 0`,
`fireForget = 0`, no arguments: the frame written is `08 RPC 00 00 01`, its size
varint decodes to 4, the type byte is `RPC`, and `amb_handle_rpc` on the three
body bytes recovers `methodID = 0` and the empty arguments but the
fire-and-forget byte `1` instead of the `0` that was passed: the writer stores
the constant `1`. -/
theorem incoming_rpc_fire_forget_lost :
    amb_write_incoming_rpc sample_tags 0 0 [] = [8, sample_tags.RPC, 0, 0, 1] ∧
      read_zigzag_int (amb_write_incoming_rpc sample_tags 0 0 []) = .ok 4 1 ∧
      amb_handle_rpc ((amb_write_incoming_rpc sample_tags 0 0 []).drop 2) (wrap32 (4 - 1)) =
        .ok { rpc_or_ret := 0, methodID := 0, fire_forget := 1, args := [], argsLen := 0 } 3 ∧
      amb_normal_processing_walk sample_tags (amb_write_incoming_rpc sample_tags 0 0 []) =
        .done [.dispatch 0 [] 0] 5 := by
  decide

/-- C4 (outgoing frame size field).  When the frame length fits an `int`, the
bytes written by `amb_write_outgoing_rpc` are a size varint that decodes to `S`
followed by exactly `S` bytes: the `RPC` type byte, `varint(destLen)`, `dest`,
`rpcOrRet`, `varint(methodID)`, `fireForget`, `args`.  So `S` counts the type
byte plus body and not the size varint.  `amb_write_outgoing_rpc_hdr` writes the
same bytes without the trailing `args`. -/
theorem outgoing_frame_size_field (M : MsgTypes) (dest : List Nat) (rpcOrRet : Nat)
    (methodID : Int) (fireForget : Nat) (args : List Nat)
    (hfit : ((1 + zigzag_int_size dest.length + dest.length + 1 + zigzag_int_size methodID
      + 1 + args.length : Nat) : Int) < 2147483648) :
    ∃ (S : Nat) (body : List Nat),
      S = 1 + zigzag_int_size dest.length + dest.length + 1 + zigzag_int_size methodID
        + 1 + args.length ∧
      body = [M.RPC] ++ write_zigzag_int dest.length ++ dest ++ [rpcOrRet]
        ++ write_zigzag_int methodID ++ [fireForget] ++ args ∧
      amb_write_outgoing_rpc M dest rpcOrRet methodID fireForget args
        = write_zigzag_int S ++ body ∧
      body.length = S ∧
      read_zigzag_int (amb_write_outgoing_rpc M dest rpcOrRet methodID fireForget args)
        = .ok S (zigzag_int_size S) ∧
      (amb_write_outgoing_rpc M dest rpcOrRet methodID fireForget args).length
        = zigzag_int_size S + S ∧
      amb_write_outgoing_rpc_hdr M dest rpcOrRet methodID fireForget args.length ++ args
        = write_zigzag_int S ++ body := by
  have hframe : amb_write_outgoing_rpc M dest rpcOrRet methodID fireForget args =
      write_zigzag_int ((1 + zigzag_int_size dest.length + dest.length + 1
          + zigzag_int_size methodID + 1 + args.length : Nat) : Int) ++
        ([M.RPC] ++ write_zigzag_int dest.length ++ dest ++ [rpcOrRet]
          ++ write_zigzag_int methodID ++ [fireForget] ++ args) := by
    simp only [amb_write_outgoing_rpc, amb_write_outgoing_rpc_hdr, write_zigzag_int_wrap32]
    push_cast
    simp
  have hlen : ([M.RPC] ++ write_zigzag_int dest.length ++ dest ++ [rpcOrRet]
      ++ write_zigzag_int methodID ++ [fireForget] ++ args).length =
      1 + zigzag_int_size dest.length + dest.length + 1 + zigzag_int_size methodID
        + 1 + args.length := by
    simp [write_zigzag_int_length]
    omega
  refine ⟨_, _, rfl, rfl, hframe, hlen, ?_, ?_, hframe⟩
  · rw [hframe]
    exact read_write_zigzag _ (is_i32_of_nat _ hfit) _
  · rw [hframe, List.length_append, hlen, write_zigzag_int_length]

theorem outgoing_frame_size_field_witness :
    ((1 + zigzag_int_size ([65, 66] : List Nat).length + ([65, 66] : List Nat).length + 1
      + zigzag_int_size 300 + 1 + ([1, 2, 3] : List Nat).length : Nat) : Int) < 2147483648 ∧
    ∃ (S : Nat) (body : List Nat),
      S = 1 + zigzag_int_size ([65, 66] : List Nat).length + ([65, 66] : List Nat).length + 1
        + zigzag_int_size 300 + 1 + ([1, 2, 3] : List Nat).length ∧
      body = [sample_tags.RPC] ++ write_zigzag_int ([65, 66] : List Nat).length ++ [65, 66]
        ++ [1] ++ write_zigzag_int 300 ++ [0] ++ [1, 2, 3] ∧
      amb_write_outgoing_rpc sample_tags [65, 66] 1 300 0 [1, 2, 3]
        = write_zigzag_int S ++ body ∧
      body.length = S ∧
      read_zigzag_int (amb_write_outgoing_rpc sample_tags [65, 66] 1 300 0 [1, 2, 3])
        = .ok S (zigzag_int_size S) ∧
      (amb_write_outgoing_rpc sample_tags [65, 66] 1 300 0 [1, 2, 3]).length
        = zigzag_int_size S + S ∧
      amb_write_outgoing_rpc_hdr sample_tags [65, 66] 1 300 0 ([1, 2, 3] : List Nat).length
          ++ [1, 2, 3]
        = write_zigzag_int S ++ body :=
  ⟨by decide, outgoing_frame_size_field sample_tags [65, 66] 1 300 0 [1, 2, 3] (by decide)⟩

/-- C5 as stated fails: for `dest = "X"`, `methodID = 1`, `fireForget = 1`, no
arguments and `rpcOrRet = 0` the frame does not start with the size byte `0x0A`
(size 5). -/
theorem outgoing_frame_example_size_five_fails :
    amb_write_outgoing_rpc sample_tags [88] 0 1 1 [] ≠ [0x0A, sample_tags.RPC, 0x02, 88, 0, 0x02, 0x01] := by
  decide

/-- C5 (outgoing frame example, amended).  For `dest = "X"`, `methodID = 1`,
`fireForget = 1`, no arguments and any `rpcOrRet` byte `r`, the frame is the size
varint of 6 (byte `0x0C`) followed by the six bytes `RPC, 0x02, 'X', r, 0x02,
0x01`. -/
theorem outgoing_frame_example (M : MsgTypes) (r : Nat) :
    amb_write_outgoing_rpc M [88] r 1 1 [] = [0x0C, M.RPC, 0x02, 88, r, 0x02, 0x01] ∧
      write_zigzag_int 6 = [0x0C] := by
  constructor
  · rfl
  · rfl

/-! ## Ingress walk -/

/-- C6 (ingress dispatch order).  For a payload that is the concatenation of
well-formed top-level RPC envelopes `M1..Mn`, one pass of the message walk makes
exactly the `n` dispatch calls of `M1..Mn`, in index order, each with the
message's `methodID` and `args` and with
`argsLen = (size - 1) - (1 + varint length of methodID + 1)`, and the walk ends
exactly at the end of the payload. -/
theorem ingress_dispatch_order (M : MsgTypes) (msgs : List RpcMsg) (hw : ∀ m ∈ msgs, m.wf) :
    amb_normal_processing_walk M (rpc_payload M msgs) =
        .done (msgs.map RpcMsg.event) (rpc_payload M msgs).length ∧
      ∀ m ∈ msgs, m.event = .dispatch m.methodID m.args
        ((((m.body.length : Int) + 1) - 1) - (1 + zigzag_int_size m.methodID + 1)) := by
  constructor
  · unfold amb_normal_processing_walk
    have h := message_loop_rpcs M (rpc_payload M msgs) msgs ((rpc_payload M msgs).length + 1) 0 []
      hw (by have := rpc_payload_length_ge M msgs; omega) (by simp) (by omega)
    simpa using h
  · intro m _
    unfold RpcMsg.event
    rw [RpcMsg.body_length]
    congr 1
    push_cast
    omega

theorem ingress_dispatch_order_witness :
    (∀ m ∈ [({ reserved := 0, methodID := 7, fireForget := 1, args := [1, 2] } : RpcMsg),
        { reserved := 0, methodID := -300, fireForget := 0, args := [] }], m.wf) ∧
    (amb_normal_processing_walk sample_tags (rpc_payload sample_tags
        [{ reserved := 0, methodID := 7, fireForget := 1, args := [1, 2] },
         { reserved := 0, methodID := -300, fireForget := 0, args := [] }]) =
        .done ([({ reserved := 0, methodID := 7, fireForget := 1, args := [1, 2] } : RpcMsg),
          { reserved := 0, methodID := -300, fireForget := 0, args := [] }].map RpcMsg.event)
          (rpc_payload sample_tags
            [{ reserved := 0, methodID := 7, fireForget := 1, args := [1, 2] },
             { reserved := 0, methodID := -300, fireForget := 0, args := [] }]).length ∧
      ∀ m ∈ [({ reserved := 0, methodID := 7, fireForget := 1, args := [1, 2] } : RpcMsg),
          { reserved := 0, methodID := -300, fireForget := 0, args := [] }],
        m.event = .dispatch m.methodID m.args
          ((((m.body.length : Int) + 1) - 1) - (1 + zigzag_int_size m.methodID + 1))) :=
  ⟨by decide, ingress_dispatch_order sample_tags _ (by decide)⟩

theorem wrap32_sub_wrap32 (a b : Int) : wrap32 (wrap32 a - b) = wrap32 (a - b) := by
  unfold wrap32 to_i32 to_u32
  split <;> split <;> split <;> omega

theorem write_zigzag_int_ne_nil (v : Int) : write_zigzag_int v ≠ [] := by
  intro h
  have h1 := write_zigzag_int_length v
  have h2 := zigzag_int_size_pos v
  rw [h] at h1
  simp at h1
  omega

theorem lt_length_of_drop_eq_varint {buf : List Nat} {pos : Nat} {v : Int} {l : List Nat}
    (h : buf.drop pos = write_zigzag_int v ++ l) : pos < buf.length := by
  obtain ⟨b, t, hbt⟩ := List.exists_cons_of_ne_nil (write_zigzag_int_ne_nil v)
  rw [hbt] at h
  exact lt_length_of_drop_eq_cons h

/-- One iteration of the batch loop on a well-formed inner envelope, whatever
its type byte. -/
theorem batch_loop_step (buf : List Nat) (n pos : Nat) (rawsize : Int) (ev : List Event)
    (t : Nat) (m : RpcMsg) (hw : m.wf) (rest : List Nat)
    (hdrop : buf.drop pos = envelope t m.body ++ rest) :
    batch_loop buf (n + 1) pos rawsize ev =
      batch_loop buf n (pos + (envelope t m.body).length)
        (wrap32 (rawsize - (envelope t m.body).length)) (ev ++ [m.event]) := by
  have hsz : is_i32 ((m.body.length : Int) + 1) := by
    have := hw.2
    unfold is_i32
    omega
  have hd1 : buf.drop pos =
      write_zigzag_int ((m.body.length : Int) + 1) ++ (t :: (m.body ++ rest)) := by
    rw [hdrop]
    simp [envelope]
  have hd2 : buf.drop (pos + zigzag_int_size ((m.body.length : Int) + 1)) =
      t :: (m.body ++ rest) := by
    rw [← write_zigzag_int_length]
    exact drop_add_of_drop_eq hd1
  rw [batch_loop, hd1, read_write_zigzag _ hsz]
  simp only [hd2]
  have hraw : wrap32 ((m.body.length : Int) + 1 - 1) = (m.body.length : Int) := by
    rw [wrap32_of_i32]
    · omega
    · unfold is_i32 at *
      omega
  rw [hraw]
  have hb : m.body ++ rest =
      m.reserved :: (write_zigzag_int m.methodID ++ m.fireForget :: (m.args ++ rest)) := by
    simp [RpcMsg.body]
  rw [hb, amb_handle_rpc_body m.reserved m.fireForget m.methodID m.args rest hw.1 _
    (by rw [RpcMsg.body_length])]
  simp only
  have e1 : pos + zigzag_int_size ((m.body.length : Int) + 1) + 1 +
      (1 + zigzag_int_size m.methodID + 1 + m.args.length) =
      pos + (envelope t m.body).length := by
    rw [envelope_length, RpcMsg.body_length]
    omega
  have e2 : zigzag_int_size ((m.body.length : Int) + 1) + 1 +
      (1 + zigzag_int_size m.methodID + 1 + m.args.length) = (envelope t m.body).length := by
    rw [envelope_length, RpcMsg.body_length]
  rw [e1, e2]
  rfl

/-- The batch loop over `numMsgs` well-formed inner envelopes: one dispatch per
envelope, in order; the cursor ends behind the last one; the counter `rawsize`
has been reduced by the bytes consumed, and nothing looks at it. -/
theorem batch_loop_inner (buf : List Nat) :
    ∀ (inner : List (Nat × RpcMsg)) (pos : Nat) (rawsize : Int) (ev : List Event)
      (rest : List Nat),
      (∀ tm ∈ inner, tm.2.wf) → is_i32 rawsize → buf.drop pos = batch_body inner ++ rest →
      batch_loop buf inner.length pos rawsize ev =
        .done (ev ++ batch_events inner)
          (pos + (batch_body inner).length, wrap32 (rawsize - (batch_body inner).length)) := by
  intro inner
  induction inner with
  | nil =>
    intro pos rawsize ev rest _ hr _
    simp [batch_loop, batch_events, batch_body, wrap32_of_i32 rawsize hr]
  | cons tm tms ih =>
    intro pos rawsize ev rest hw hr hd
    rw [batch_body, List.append_assoc] at hd
    rw [List.length_cons, batch_loop_step buf _ pos rawsize ev tm.1 tm.2 (hw tm (by simp)) _ hd,
      ih (pos + (envelope tm.1 tm.2.body).length)
        (wrap32 (rawsize - (envelope tm.1 tm.2.body).length)) (ev ++ [tm.2.event]) rest
        (fun x hx => hw x (by simp [hx])) (is_i32_wrap32 _) (drop_add_of_drop_eq hd)]
    simp only [batch_events, batch_body, List.map_cons, List.length_append,
      List.append_assoc, List.singleton_append]
    congr 2
    · omega
    · rw [wrap32_sub_wrap32]
      congr 1
      push_cast
      omega

theorem MsgTypes.valid_ne (M : MsgTypes) (hM : M.valid) :
    M.RPCBatch ≠ M.RPC ∧ M.RPCBatch ≠ M.InitialMessage ∧ M.InitialMessage ≠ M.RPC ∧
      M.RPC ≠ M.AttachTo := by
  have h := hM.1
  simp only [List.nodup_cons, List.mem_cons, List.mem_singleton, not_or] at h
  refine ⟨?_, ?_, ?_, ?_⟩
  · exact fun e => h.1.2.2.1 e.symm
  · exact fun e => h.2.2.2.1.2.1 e
  · exact fun e => h.1.2.2.2.2.1 e.symm
  · exact h.1.1

theorem batch_envelope_length (M : MsgTypes) (size : Int) (inner : List (Nat × RpcMsg)) :
    (batch_envelope M size inner).length =
      zigzag_int_size size + 1 + zigzag_int_size inner.length + (batch_body inner).length := by
  simp [batch_envelope, write_zigzag_int_length]
  omega

/-- One iteration of the message walk on an `RPCBatch` envelope with well-formed
inner envelopes, for any declared size. -/
theorem message_loop_batch (M : MsgTypes) (hM : M.valid) (buf : List Nat) (fuel pos : Nat)
    (ev : List Event) (size : Int) (hsize : is_i32 size) (inner : List (Nat × RpcMsg))
    (hw : ∀ tm ∈ inner, tm.2.wf) (hk : (inner.length : Int) < 2147483648) (rest : List Nat)
    (hdrop : buf.drop pos = batch_envelope M size inner ++ rest) :
    message_loop M buf (fuel + 1) pos ev =
      message_loop M buf fuel (pos + (batch_envelope M size inner).length)
        (ev ++ batch_events inner) := by
  obtain ⟨hne1, hne2, _, _⟩ := M.valid_ne hM
  have hd1 : buf.drop pos = write_zigzag_int size ++
      (M.RPCBatch :: (write_zigzag_int inner.length ++ (batch_body inner ++ rest))) := by
    rw [hdrop]
    simp [batch_envelope]
  have hlt : pos < buf.length := lt_length_of_drop_eq_varint hd1
  have hd2 : buf.drop (pos + zigzag_int_size size) =
      M.RPCBatch :: (write_zigzag_int inner.length ++ (batch_body inner ++ rest)) := by
    rw [← write_zigzag_int_length]
    exact drop_add_of_drop_eq hd1
  have hd3 : buf.drop (pos + zigzag_int_size size + 1 + zigzag_int_size inner.length) =
      batch_body inner ++ rest := by
    have h := @drop_add_of_drop_eq buf pos
      (write_zigzag_int size ++ (M.RPCBatch :: write_zigzag_int inner.length))
      (batch_body inner ++ rest) (by rw [hd1]; simp)
    rw [← h]
    congr 1
    simp [write_zigzag_int_length]
    omega
  rw [message_loop, if_pos hlt, hd1, read_write_zigzag _ hsize]
  simp only [hd2, if_neg hne1, if_neg hne2, if_true]
  rw [read_write_zigzag _ (is_i32_of_nat _ hk)]
  simp only [Int.toNat_ofNat]
  rw [batch_loop_inner buf inner _ _ ev rest hw (is_i32_wrap32 _) hd3]
  simp only
  congr 1
  rw [batch_envelope_length]
  omega

/-- One iteration of the message walk on the size and type bytes of an
`InitialMessage` envelope: nothing happens and the cursor stands at the first
byte of the body. -/
theorem message_loop_initial (M : MsgTypes) (hM : M.valid) (buf : List Nat) (fuel pos : Nat)
    (ev : List Event) (size : Int) (hsize : is_i32 size) (rest : List Nat)
    (hdrop : buf.drop pos = write_zigzag_int size ++ M.InitialMessage :: rest) :
    message_loop M buf (fuel + 1) pos ev =
      message_loop M buf fuel (pos + zigzag_int_size size + 1) ev := by
  obtain ⟨_, _, hne, _⟩ := M.valid_ne hM
  have hlt : pos < buf.length := lt_length_of_drop_eq_varint hdrop
  have hd2 : buf.drop (pos + zigzag_int_size size) = M.InitialMessage :: rest := by
    rw [← write_zigzag_int_length]
    exact drop_add_of_drop_eq hdrop
  rw [message_loop, if_pos hlt, hdrop, read_write_zigzag _ hsize]
  simp only [hd2, if_neg hne, if_true]

/-- C7 as stated fails: the payload below is an `RPCBatch` envelope that declares
size 100 and one inner message, followed by a top-level RPC.  After the inner
envelope the remaining-bytes counter stands at 92, not 0, and the walk neither
checks it nor fails: it goes on with the next message and ends normally. -/
theorem batch_residual_not_fatal :
    batch_loop [200, 1, 5, 2, 12, 0, 0, 14, 1, 1, 2, 8, 0, 0, 16, 1] 1 4 99 []
        = .done [.dispatch 7 [1, 2] 2] (11, 92) ∧
      amb_normal_processing_walk sample_tags
          [200, 1, 5, 2, 12, 0, 0, 14, 1, 1, 2, 8, 0, 0, 16, 1]
        = .done [.dispatch 7 [1, 2] 2, .dispatch 8 [] 0] 16 := by
  decide

/-- C7 (batch accounting, amended).  For an `RPCBatch` envelope with any declared
size, holding `numMsgs` well-formed inner envelopes and followed by well-formed
top-level RPC envelopes, the batch loop reduces the counter (declared size minus
the type byte) by the bytes of the inner envelopes and nothing verifies it: the
walk makes the dispatch calls of the inner messages, continues with the message
behind the last inner envelope, and ends normally at the end of the payload. -/
theorem batch_counter_not_verified (M : MsgTypes) (hM : M.valid) (size : Int)
    (hsize : is_i32 size) (inner : List (Nat × RpcMsg)) (hw : ∀ tm ∈ inner, tm.2.wf)
    (hk : (inner.length : Int) < 2147483648) (msgs : List RpcMsg) (hw2 : ∀ m ∈ msgs, m.wf) :
    batch_loop (batch_envelope M size inner ++ rpc_payload M msgs) inner.length
        (zigzag_int_size size + 1 + zigzag_int_size inner.length) (wrap32 (size - 1)) []
      = .done (batch_events inner)
          ((batch_envelope M size inner).length,
            wrap32 (size - 1 - (batch_body inner).length)) ∧
    amb_normal_processing_walk M (batch_envelope M size inner ++ rpc_payload M msgs)
      = .done (batch_events inner ++ msgs.map RpcMsg.event)
          (batch_envelope M size inner ++ rpc_payload M msgs).length := by
  have hd0 : (batch_envelope M size inner ++ rpc_payload M msgs).drop 0 =
      batch_envelope M size inner ++ rpc_payload M msgs := by simp
  constructor
  · have hd3 : (batch_envelope M size inner ++ rpc_payload M msgs).drop
        (zigzag_int_size size + 1 + zigzag_int_size inner.length) =
        batch_body inner ++ rpc_payload M msgs := by
      have h := @drop_add_of_drop_eq (batch_envelope M size inner ++ rpc_payload M msgs) 0
        (write_zigzag_int size ++ (M.RPCBatch :: write_zigzag_int inner.length))
        (batch_body inner ++ rpc_payload M msgs) (by simp [batch_envelope])
      rw [← h]
      congr 1
      simp [write_zigzag_int_length]
      omega
    rw [batch_loop_inner _ inner _ _ [] (rpc_payload M msgs) hw (is_i32_wrap32 _) hd3]
    rw [wrap32_sub_wrap32, batch_envelope_length]
    simp
  · unfold amb_normal_processing_walk
    rw [message_loop_batch M hM _ _ 0 [] size hsize inner hw hk (rpc_payload M msgs) hd0,
      message_loop_rpcs M _ msgs _ _ _ hw2
        (by
          have h1 := rpc_payload_length_ge M msgs
          have h2 := batch_envelope_length M size inner
          simp only [List.length_append]
          omega)
        (drop_add_of_drop_eq hd0)
        (by simp)]
    simp

theorem batch_counter_not_verified_witness :
    sample_tags.valid ∧ is_i32 100 ∧
    (∀ tm ∈ [((0 : Nat), ({ reserved := 0, methodID := 7, fireForget := 1, args := [1, 2] } : RpcMsg))],
      tm.2.wf) ∧
    (([((0 : Nat), ({ reserved := 0, methodID := 7, fireForget := 1, args := [1, 2] } : RpcMsg))].length
      : Int) < 2147483648) ∧
    (∀ m ∈ [({ reserved := 0, methodID := 8, fireForget := 1, args := [] } : RpcMsg)], m.wf) ∧
    (batch_loop (batch_envelope sample_tags 100
          [(0, { reserved := 0, methodID := 7, fireForget := 1, args := [1, 2] })]
          ++ rpc_payload sample_tags [{ reserved := 0, methodID := 8, fireForget := 1, args := [] }])
        [((0 : Nat), ({ reserved := 0, methodID := 7, fireForget := 1, args := [1, 2] } : RpcMsg))].length
        (zigzag_int_size 100 + 1 + zigzag_int_size
          [((0 : Nat), ({ reserved := 0, methodID := 7, fireForget := 1, args := [1, 2] } : RpcMsg))].length)
        (wrap32 (100 - 1)) []
      = .done (batch_events [(0, { reserved := 0, methodID := 7, fireForget := 1, args := [1, 2] })])
          ((batch_envelope sample_tags 100
              [(0, { reserved := 0, methodID := 7, fireForget := 1, args := [1, 2] })]).length,
            wrap32 (100 - 1 - (batch_body
              [(0, { reserved := 0, methodID := 7, fireForget := 1, args := [1, 2] })]).length)) ∧
    amb_normal_processing_walk sample_tags (batch_envelope sample_tags 100
          [(0, { reserved := 0, methodID := 7, fireForget := 1, args := [1, 2] })]
          ++ rpc_payload sample_tags [{ reserved := 0, methodID := 8, fireForget := 1, args := [] }])
      = .done (batch_events [(0, { reserved := 0, methodID := 7, fireForget := 1, args := [1, 2] })]
            ++ [({ reserved := 0, methodID := 8, fireForget := 1, args := [] } : RpcMsg)].map
              RpcMsg.event)
          (batch_envelope sample_tags 100
            [(0, { reserved := 0, methodID := 7, fireForget := 1, args := [1, 2] })]
            ++ rpc_payload sample_tags
              [{ reserved := 0, methodID := 8, fireForget := 1, args := [] }]).length) :=
  ⟨by decide, by decide, by decide, by decide, by decide,
    batch_counter_not_verified sample_tags (by decide) 100 (by decide)
      [(0, { reserved := 0, methodID := 7, fireForget := 1, args := [1, 2] })] (by decide)
      (by decide) [{ reserved := 0, methodID := 8, fireForget := 1, args := [] }] (by decide)⟩

theorem amb_write_incoming_rpc_eq_envelope (M : MsgTypes) (methodID : Int) (fireForget : Nat)
    (args : List Nat) :
    amb_write_incoming_rpc M methodID fireForget args =
      envelope M.RPC
        ({ reserved := 0, methodID := methodID, fireForget := 1, args := args } : RpcMsg).body := by
  simp only [amb_write_incoming_rpc, envelope, write_zigzag_int_wrap32, RpcMsg.body_length]
  simp only [RpcMsg.body]
  have e : (1 : Int) + 1 + (zigzag_int_size methodID : Int) + 1 + (args.length : Int) =
      ((1 + zigzag_int_size methodID + 1 + args.length : Nat) : Int) + 1 := by
    push_cast
    omega
  rw [e]
  simp

/-- C8 as stated fails: on the echo of the startup message (an `InitialMessage`
envelope around the incoming-RPC frame for method 32 with arguments 5, 4, 3)
the walk does make a dispatch call. -/
theorem initial_message_echo_dispatches :
    amb_normal_processing_walk sample_tags
        (envelope sample_tags.InitialMessage (amb_write_incoming_rpc sample_tags 32 1 [5, 4, 3]))
      = .done [.dispatch 32 [5, 4, 3] 3] 10 ∧
    ¬ ∃ cur, amb_normal_processing_walk sample_tags
        (envelope sample_tags.InitialMessage (amb_write_incoming_rpc sample_tags 32 1 [5, 4, 3]))
      = .done [] cur := by
  have h : amb_normal_processing_walk sample_tags
        (envelope sample_tags.InitialMessage (amb_write_incoming_rpc sample_tags 32 1 [5, 4, 3]))
      = .done [.dispatch 32 [5, 4, 3] 3] 10 := by decide
  refine ⟨h, ?_⟩
  rintro ⟨cur, hc⟩
  rw [h] at hc
  cases hc

/-- C8 (InitialMessage echo, amended).  For a payload that is one
`InitialMessage` envelope around a frame written by `amb_write_incoming_rpc` (the
echo of the startup message is the case `methodID = 32`, `args = 5, 4, 3`), the
walk takes no action for the `InitialMessage` tag, then reads the body as the
next message: it makes exactly one dispatch call, for the frame's `methodID` and
`args`, sends nothing on the up socket, and ends normally at the end of the
payload. -/
theorem initial_message_echo (M : MsgTypes) (hM : M.valid) (methodID : Int) (fireForget : Nat)
    (args : List Nat) (hm : is_i32 methodID)
    (hs : ((amb_write_incoming_rpc M methodID fireForget args).length : Int) + 1 < 2147483648) :
    amb_normal_processing_walk M
        (envelope M.InitialMessage (amb_write_incoming_rpc M methodID fireForget args))
      = .done [.dispatch methodID args args.length]
          (envelope M.InitialMessage (amb_write_incoming_rpc M methodID fireForget args)).length := by
  have hsize : is_i32 (((amb_write_incoming_rpc M methodID fireForget args).length : Int) + 1) := by
    unfold is_i32
    omega
  have hwf : ({ reserved := 0, methodID := methodID, fireForget := 1, args := args } : RpcMsg).wf := by
    refine ⟨hm, ?_⟩
    rw [amb_write_incoming_rpc_eq_envelope, envelope_length] at hs
    push_cast at hs
    omega
  have hd0 : (envelope M.InitialMessage (amb_write_incoming_rpc M methodID fireForget args)).drop 0 =
      write_zigzag_int (((amb_write_incoming_rpc M methodID fireForget args).length : Int) + 1) ++
        M.InitialMessage :: amb_write_incoming_rpc M methodID fireForget args := by
    simp [envelope]
  have hd1 : (envelope M.InitialMessage (amb_write_incoming_rpc M methodID fireForget args)).drop
      (0 + zigzag_int_size (((amb_write_incoming_rpc M methodID fireForget args).length : Int) + 1)
        + 1) = amb_write_incoming_rpc M methodID fireForget args := by
    have h := @drop_add_of_drop_eq
      (envelope M.InitialMessage (amb_write_incoming_rpc M methodID fireForget args)) 0
      (write_zigzag_int (((amb_write_incoming_rpc M methodID fireForget args).length : Int) + 1)
        ++ [M.InitialMessage])
      (amb_write_incoming_rpc M methodID fireForget args) (by simp [envelope])
    have e : 0 + (write_zigzag_int
        (((amb_write_incoming_rpc M methodID fireForget args).length : Int) + 1)
          ++ [M.InitialMessage]).length =
        0 + zigzag_int_size (((amb_write_incoming_rpc M methodID fireForget args).length : Int) + 1)
          + 1 := by
      simp [write_zigzag_int_length]
    rw [e] at h
    exact h
  have hlen := envelope_length M.InitialMessage (amb_write_incoming_rpc M methodID fireForget args)
  have hfl : 1 ≤ (amb_write_incoming_rpc M methodID fireForget args).length := by
    rw [amb_write_incoming_rpc_eq_envelope, envelope_length]
    omega
  unfold amb_normal_processing_walk
  rw [message_loop_initial M hM _ _ 0 [] _ hsize _ hd0]
  have hd2 : (envelope M.InitialMessage (amb_write_incoming_rpc M methodID fireForget args)).drop
      (0 + zigzag_int_size (((amb_write_incoming_rpc M methodID fireForget args).length : Int) + 1)
        + 1) =
      rpc_payload M [{ reserved := 0, methodID := methodID, fireForget := 1, args := args }] := by
    rw [rpc_payload, rpc_payload, List.append_nil, ← amb_write_incoming_rpc_eq_envelope]
    exact hd1
  rw [message_loop_rpcs M _ [{ reserved := 0, methodID := methodID, fireForget := 1, args := args }]
    _ _ _ (by simpa using hwf) (by simp; omega) hd2 (by omega)]
  simp [RpcMsg.event]

theorem initial_message_echo_witness :
    sample_tags.valid ∧ is_i32 32 ∧
    ((amb_write_incoming_rpc sample_tags 32 1 [5, 4, 3]).length : Int) + 1 < 2147483648 ∧
    amb_normal_processing_walk sample_tags
        (envelope sample_tags.InitialMessage (amb_write_incoming_rpc sample_tags 32 1 [5, 4, 3]))
      = .done [.dispatch 32 [5, 4, 3] ([5, 4, 3] : List Nat).length]
          (envelope sample_tags.InitialMessage
            (amb_write_incoming_rpc sample_tags 32 1 [5, 4, 3])).length :=
  ⟨by decide, by decide, by decide,
    initial_message_echo sample_tags (by decide) 32 1 [5, 4, 3] (by decide) (by decide)⟩

/-! ## Attach manager -/

theorem strlen_c_string (D rest : List Nat) (hnul : 0 ∉ D) :
    strlen (D ++ 0 :: rest) = some D.length := by
  induction D with
  | nil => simp [strlen]
  | cons b bs ih =>
    have hb : b ≠ 0 := fun e => hnul (by simp [e])
    have hbs : 0 ∉ bs := fun h => hnul (by simp [h])
    simp [strlen, hb, ih hbs]

theorem zigzag_int_size_small (v : Int) (h0 : 0 ≤ v) (h : v < 8192) : zigzag_int_size v ≤ 2 := by
  have hz := zigzag_bits_eq v (by unfold is_i32; omega)
  rw [if_pos h0] at hz
  have hlt := zigzag_bits_lt v
  unfold zigzag_int_size
  rw [zigzag_size_loop_succ _ _ _ hlt]
  split
  · rw [zigzag_size_loop_succ _ _ _ (by omega)]
    have : ¬ (128 ≤ zigzag_bits v / 128) := by omega
    rw [if_neg this]
  · omega

/-- The first `attach_if_needed` call with a non-empty destination that fits the
send buffer: the `AttachTo` envelope is sent and `g_attached` is set. -/
theorem attach_if_needed_first (M : MsgTypes) (D rest : List Nat) (destLen : Int)
    (hnul : 0 ∉ D) (hlen : D.length ≤ 125) (hd : destLen ≠ 0) :
    attach_if_needed M 0 (D ++ 0 :: rest) destLen =
      .done [.send (write_zigzag_int ((D.length : Int) + 1) ++ [M.AttachTo] ++ D)] 1 := by
  unfold attach_if_needed
  rw [if_pos ⟨rfl, hd⟩]
  simp only [strlen_c_string D rest hnul]
  have hw : wrap32 (D.length : Int) = D.length := wrap32_of_i32 _ (by unfold is_i32; omega)
  have hsz := zigzag_int_size_small ((D.length : Int) + 1) (by omega) (by omega)
  have ht : (D ++ 0 :: rest).take D.length = D := List.take_left _ _
  rw [hw, write_zigzag_int_wrap32, ht]
  have hl : ¬ ((write_zigzag_int ((D.length : Int) + 1) ++ [M.AttachTo] ++ D).length > 128) := by
    simp only [List.length_append, write_zigzag_int_length, List.length_singleton]
    omega
  rw [if_neg hl]

theorem attach_if_needed_attached (M : MsgTypes) (g : Int) (hg : g ≠ 0) (dest : List Nat)
    (destLen : Int) : attach_if_needed M g dest destLen = .done [] g := by
  unfold attach_if_needed
  rw [if_neg (fun h => hg h.1)]

theorem attach_if_needed_self (M : MsgTypes) (g : Int) (dest : List Nat) :
    attach_if_needed M g dest 0 = .done [] g := by
  unfold attach_if_needed
  rw [if_neg (fun h => h.2 rfl)]

theorem outbound_sends_attached (M : MsgTypes) (D : List Nat) :
    ∀ (calls : List RpcSend) (ev : List Event),
      outbound_sends M D calls 1 ev = .done (ev ++ rpc_send_events M D calls) 1 := by
  intro calls
  induction calls with
  | nil => intro ev; simp [outbound_sends, rpc_send_events]
  | cons c cs ih =>
    intro ev
    rw [outbound_sends, attach_if_needed_attached M 1 (by decide)]
    simp only
    rw [ih]
    simp [rpc_send_events]

theorem attach_calls_attached (M : MsgTypes) :
    ∀ (calls : List (List Nat × Int)) (ev : List Event),
      attach_calls M calls 1 ev = .done ev 1 := by
  intro calls
  induction calls with
  | nil => intro ev; rfl
  | cons c cs ih =>
    intro ev
    rw [attach_calls, attach_if_needed_attached M 1 (by decide)]
    simp only
    rw [ih]
    simp

theorem attach_calls_self (M : MsgTypes) :
    ∀ (pre calls : List (List Nat × Int)) (g : Int) (ev : List Event),
      (∀ c ∈ pre, c.2 = 0) →
      attach_calls M (pre ++ calls) g ev = attach_calls M calls g ev := by
  intro pre
  induction pre with
  | nil => intro calls g ev _; rfl
  | cons c cs ih =>
    intro calls g ev h
    have hc : c.2 = 0 := h c (by simp)
    rw [List.cons_append, attach_calls, hc, attach_if_needed_self]
    simp only
    rw [List.append_nil, ih calls g ev (fun x hx => h x (by simp [hx]))]

set_option maxRecDepth 100000 in
/-- C9 as stated fails at the 126-byte bound: for a destination of 126 bytes the
attach envelope takes 2 + 1 + 126 = 129 bytes and does not fit `sendbuf[128]`;
the first send runs past the buffer. -/
theorem attach_once_fails_at_126 :
    List.replicate 126 65 ≠ [] ∧ 0 ∉ List.replicate 126 65 ∧
      (List.replicate 126 65).length ≤ 126 ∧
      (write_zigzag_int 127 ++ [sample_tags.AttachTo] ++ List.replicate 126 65).length = 129 ∧
      outbound_sends sample_tags (List.replicate 126 65)
        [{ rpcOrRet := 0, methodID := 1, fireForget := 1, args := [] }] g_attached_init []
        = .fault [] := by
  decide

/-- C9 (attach-once, amended to destinations of at most 125 bytes).  From the
initial state, `N >= 1` outbound sends to a non-empty NUL-free destination `D` of
at most 125 bytes put on the up socket first the `AttachTo` envelope
`varint(len(D)+1), AttachTo, D`, once, and then only the header and argument runs
of the RPC sends, in order. -/
theorem attach_once (M : MsgTypes) (D : List Nat) (calls : List RpcSend)
    (hne : D ≠ []) (hnul : 0 ∉ D) (hlen : D.length ≤ 125) (hN : 1 ≤ calls.length) :
    outbound_sends M D calls g_attached_init [] =
      .done (.send (write_zigzag_int ((D.length : Int) + 1) ++ [M.AttachTo] ++ D)
        :: rpc_send_events M D calls) 1 := by
  match calls, hN with
  | c :: cs, _ =>
    have hd : (D.length : Int) ≠ 0 := by
      have := List.length_pos.mpr hne
      omega
    have h := attach_if_needed_first M D [] (D.length : Int) hnul hlen hd
    unfold g_attached_init
    rw [outbound_sends, h]
    simp only
    rw [outbound_sends_attached]
    simp [rpc_send_events]

theorem attach_once_witness :
    ([65, 66] : List Nat) ≠ [] ∧ 0 ∉ ([65, 66] : List Nat) ∧ ([65, 66] : List Nat).length ≤ 125 ∧
    1 ≤ [({ rpcOrRet := 0, methodID := 1, fireForget := 1, args := [7] } : RpcSend),
        { rpcOrRet := 1, methodID := 2, fireForget := 0, args := [] }].length ∧
    outbound_sends sample_tags [65, 66]
        [{ rpcOrRet := 0, methodID := 1, fireForget := 1, args := [7] },
         { rpcOrRet := 1, methodID := 2, fireForget := 0, args := [] }] g_attached_init [] =
      .done (.send (write_zigzag_int ((([65, 66] : List Nat).length : Int) + 1)
          ++ [sample_tags.AttachTo] ++ [65, 66])
        :: rpc_send_events sample_tags [65, 66]
          [{ rpcOrRet := 0, methodID := 1, fireForget := 1, args := [7] },
           { rpcOrRet := 1, methodID := 2, fireForget := 0, args := [] }]) 1 :=
  ⟨by decide, by decide, by decide, by decide,
    attach_once sample_tags [65, 66] _ (by decide) (by decide) (by decide) (by decide)⟩

set_option maxRecDepth 100000 in
/-- C10 as stated fails: after an attach to "A", the first call for the
different destination "B" sends nothing.  (And a first call for a destination
of 126 bytes runs past `sendbuf[128]`.) -/
theorem second_destination_not_attached :
    attach_if_needed sample_tags g_attached_init [65, 0] 1 = .done [.send [4, 1, 65]] 1 ∧
      attach_if_needed sample_tags 1 [66, 0] 1 = .done [] 1 ∧
      attach_calls sample_tags [([65, 0], 1), ([66, 0], 1)] g_attached_init []
        = .done [.send [4, 1, 65]] 1 ∧
      attach_if_needed sample_tags g_attached_init (List.replicate 126 65 ++ [0]) 126
        = .fault [] := by
  decide

/-- C10 (amended to the single attach flag).  In every sequence of
`attach_if_needed` calls from the initial state, calls with an empty destination
(`destLen = 0`) send nothing; the first call with a non-empty destination `D`
(NUL-free, at most 125 bytes) sends the `AttachTo` envelope for `D`; and every
call after it sends nothing, whatever its destination. -/
theorem attach_first_destination_only (M : MsgTypes) (pre post : List (List Nat × Int))
    (D : List Nat) (hpre : ∀ c ∈ pre, c.2 = 0) (hne : D ≠ []) (hnul : 0 ∉ D)
    (hlen : D.length ≤ 125) :
    attach_calls M (pre ++ (D ++ [0], (D.length : Int)) :: post) g_attached_init [] =
      .done [.send (write_zigzag_int ((D.length : Int) + 1) ++ [M.AttachTo] ++ D)] 1 := by
  have hd : (D.length : Int) ≠ 0 := by
    have := List.length_pos.mpr hne
    omega
  rw [attach_calls_self M pre _ _ _ hpre]
  unfold g_attached_init
  rw [attach_calls, attach_if_needed_first M D [] (D.length : Int) hnul hlen hd]
  simp only
  rw [attach_calls_attached]
  simp

theorem attach_first_destination_only_witness :
    (∀ c ∈ [(([0] : List Nat), (0 : Int))], c.2 = 0) ∧ ([65] : List Nat) ≠ [] ∧
    0 ∉ ([65] : List Nat) ∧ ([65] : List Nat).length ≤ 125 ∧
    attach_calls sample_tags ([(([0] : List Nat), (0 : Int))]
        ++ (([65] : List Nat) ++ [0], ((([65] : List Nat).length : Nat) : Int))
          :: [([66, 0], 1), ([65, 0], 1)]) g_attached_init [] =
      .done [.send (write_zigzag_int ((([65] : List Nat).length : Int) + 1)
        ++ [sample_tags.AttachTo] ++ [65])] 1 :=
  ⟨by decide, by decide, by decide, by decide,
    attach_first_destination_only sample_tags [([0], 0)] [([66, 0], 1), ([65, 0], 1)] [65]
      (by decide) (by decide) (by decide) (by decide)⟩

/-! ## The iteration bound of the message walk is never reached -/

theorem batch_loop_cursor (buf : List Nat) :
    ∀ (n pos : Nat) (rawsize : Int) (ev : List Event),
      batch_loop buf n pos rawsize ev ≠ .out_of_fuel ∧
      ∀ ev2 p, batch_loop buf n pos rawsize ev = .done ev2 p → pos ≤ p.1 := by
  intro n
  induction n with
  | zero =>
    intro pos rawsize ev
    simp only [batch_loop]
    refine ⟨by simp, ?_⟩
    intro ev2 p h
    cases h
    exact Nat.le_refl _
  | succ n ih =>
    intro pos rawsize ev
    rw [batch_loop]
    split
    · exact ⟨by simp, by intro _ _ h; cases h⟩
    · exact ⟨by simp, by intro _ _ h; cases h⟩
    · split
      · exact ⟨by simp, by intro _ _ h; cases h⟩
      · split
        · exact ⟨by simp, by intro _ _ h; cases h⟩
        · exact ⟨by simp, by intro _ _ h; cases h⟩
        · rename_i k _ _ _ _ _ c _
          refine ⟨(ih _ _ _).1, ?_⟩
          intro ev2 p h
          have := (ih _ _ _).2 ev2 p h
          omega

theorem message_loop_fuel (M : MsgTypes) (buf : List Nat) :
    ∀ (fuel pos : Nat) (ev : List Event), 1 ≤ fuel → buf.length + 1 ≤ pos + fuel →
      message_loop M buf fuel pos ev ≠ .out_of_fuel := by
  intro fuel
  induction fuel with
  | zero => intro pos ev h; omega
  | succ f ih =>
    intro pos ev _ hb
    rw [message_loop]
    split
    · rename_i hlt
      split
      · simp
      · simp
      · split
        · simp
        · simp only
          split
          · split
            · simp
            · simp
            · exact ih _ _ (by omega) (by omega)
          · split
            · exact ih _ _ (by omega) (by omega)
            · split
              · split
                · simp
                · simp
                · rename_i numMsgs k2 _
                  split
                  · rename_i ev2 cur2 r2 hbl
                    have := (batch_loop_cursor buf _ _ _ _).2 _ _ hbl
                    simp only at this
                    exact ih _ _ (by omega) (by omega)
                  · simp
                  · simp
                  · rename_i hbl
                    exact absurd hbl (batch_loop_cursor buf _ _ _ _).1
              · split
                · exact ih _ _ (by omega) (by omega)
                · simp
    · simp

/-- The walk over a payload always ends in one of the three real outcomes: it
returns, aborts, or faults. -/
theorem amb_normal_processing_walk_total (M : MsgTypes) (buf : List Nat) :
    amb_normal_processing_walk M buf ≠ .out_of_fuel :=
  message_loop_fuel M buf _ 0 [] (by omega) (by omega)

/-! ## Startup protocol -/

theorem startup_first_envelope_ok (M : MsgTypes) (payload : List Nat) (size : Int) (k t : Nat)
    (rest : List Nat) (hr : read_zigzag_int payload = .ok size k)
    (hd : payload.drop k = t :: rest) :
    startup_first_envelope M payload =
      if t = M.TakeBecomingPrimaryCheckpoint then .first_boot
      else if t = M.Checkpoint then .recovery_not_implemented
      else .protocol_violation t := by
  unfold startup_first_envelope
  rw [hr]
  simp only [hd]

theorem startup_first_envelope_first_boot (M : MsgTypes) (payload : List Nat) :
    startup_first_envelope M payload = .first_boot ↔
      ∃ size k rest, read_zigzag_int payload = .ok size k ∧
        payload.drop k = M.TakeBecomingPrimaryCheckpoint :: rest := by
  constructor
  · intro h
    unfold startup_first_envelope at h
    split at h
    · cases h
    · cases h
    · rename_i size k hr
      split at h
      · cases h
      · rename_i t rest hd
        split at h
        · rename_i ht
          exact ⟨size, k, rest, hr, by rw [hd, ht]⟩
        · split at h <;> cases h
  · rintro ⟨size, k, rest, hr, hd⟩
    rw [startup_first_envelope_ok M payload size k _ rest hr hd, if_pos rfl]

theorem amb_startup_protocol_no_send (M : MsgTypes) (payload : List Nat)
    (h : startup_first_envelope M payload ≠ .first_boot) :
    amb_startup_protocol M payload = .abort [] ∨ amb_startup_protocol M payload = .fault [] := by
  unfold amb_startup_protocol
  split
  · rename_i hb
    exact absurd hb h
  · exact Or.inl rfl
  · exact Or.inl rfl
  · exact Or.inl rfl
  · exact Or.inr rfl

/-- The first-boot branch with room for the message in the payload buffer: the
`InitialMessage` envelope is sent, then the dummy checkpoint. -/
theorem amb_startup_protocol_first_boot (M : MsgTypes) (payload : List Nat)
    (hb : startup_first_envelope M payload = .first_boot) (hroom : 10 ≤ payload.length) :
    amb_startup_protocol M payload =
      .done [.send ([0x12, M.InitialMessage, 0x0E, M.RPC, 0x00, 0x40, 0x01, 0x05, 0x04, 0x03]),
        .dummy_checkpoint] () := by
  unfold amb_startup_protocol
  rw [hb]
  simp only
  rw [if_neg (by omega)]
  have e : write_zigzag_int (wrap32 (((amb_write_incoming_rpc M STARTUP_ID 1 [5, 4, 3]).length
      : Int) + 1)) ++ [M.InitialMessage] ++ amb_write_incoming_rpc M STARTUP_ID 1 [5, 4, 3] =
      [0x12, M.InitialMessage, 0x0E, M.RPC, 0x00, 0x40, 0x01, 0x05, 0x04, 0x03] := by
    have h1 : amb_write_incoming_rpc M STARTUP_ID 1 [5, 4, 3] =
        [0x0E, M.RPC, 0x00, 0x40, 0x01, 0x05, 0x04, 0x03] := rfl
    have h2 : ((([0x0E, M.RPC, 0x00, 0x40, 0x01, 0x05, 0x04, 0x03] : List Nat).length : Nat)
        : Int) + 1 = 9 := by simp
    have h3 : write_zigzag_int (wrap32 9) = [0x12] := by decide
    rw [h1, h2, h3]
    rfl
  rw [e]
  rw [if_neg (by simp; omega)]

/-- C11 (startup branch on the first envelope).  Control reaches the part of
`amb_startup_protocol` that sends the `InitialMessage` if and only if the size
varint of the payload's leading envelope decodes and its type byte is
`TakeBecomingPrimaryCheckpoint`.  On type `Checkpoint`, on any other type byte
and on a size varint for which `read_zigzag_int` returns `NULL` the function
aborts with nothing sent; and whenever the first-boot branch is not taken,
nothing has been sent on the up socket. -/
theorem startup_branch (M : MsgTypes) (hM : M.valid) (payload : List Nat) :
    (startup_first_envelope M payload = .first_boot ↔
      ∃ size k rest, read_zigzag_int payload = .ok size k ∧
        payload.drop k = M.TakeBecomingPrimaryCheckpoint :: rest) ∧
    (∀ size k rest, read_zigzag_int payload = .ok size k →
      payload.drop k = M.Checkpoint :: rest →
      startup_first_envelope M payload = .recovery_not_implemented ∧
        amb_startup_protocol M payload = .abort []) ∧
    (∀ size k t rest, read_zigzag_int payload = .ok size k → payload.drop k = t :: rest →
      t ≠ M.TakeBecomingPrimaryCheckpoint → t ≠ M.Checkpoint →
      startup_first_envelope M payload = .protocol_violation t ∧
        amb_startup_protocol M payload = .abort []) ∧
    (read_zigzag_int payload = .null →
      startup_first_envelope M payload = .malformed_varint ∧
        amb_startup_protocol M payload = .abort []) ∧
    (startup_first_envelope M payload ≠ .first_boot →
      amb_startup_protocol M payload = .abort [] ∨ amb_startup_protocol M payload = .fault []) ∧
    (startup_first_envelope M payload = .first_boot → 10 ≤ payload.length →
      ∃ bytes, amb_startup_protocol M payload = .done [.send bytes, .dummy_checkpoint] ()) := by
  have hne : M.Checkpoint ≠ M.TakeBecomingPrimaryCheckpoint := by
    have h := hM.1
    simp only [List.nodup_cons, List.mem_cons, List.mem_singleton, not_or] at h
    exact h.2.2.2.2.1.2.1
  refine ⟨startup_first_envelope_first_boot M payload, ?_, ?_, ?_,
    amb_startup_protocol_no_send M payload, ?_⟩
  · intro size k rest hr hd
    have hb : startup_first_envelope M payload = .recovery_not_implemented := by
      rw [startup_first_envelope_ok M payload size k _ rest hr hd, if_neg hne, if_pos rfl]
    refine ⟨hb, ?_⟩
    unfold amb_startup_protocol
    rw [hb]
  · intro size k t rest hr hd h1 h2
    have hb : startup_first_envelope M payload = .protocol_violation t := by
      rw [startup_first_envelope_ok M payload size k _ rest hr hd, if_neg h1, if_neg h2]
    refine ⟨hb, ?_⟩
    unfold amb_startup_protocol
    rw [hb]
  · intro hr
    have hb : startup_first_envelope M payload = .malformed_varint := by
      unfold startup_first_envelope
      rw [hr]
    refine ⟨hb, ?_⟩
    unfold amb_startup_protocol
    rw [hb]
  · intro hb hroom
    exact ⟨_, amb_startup_protocol_first_boot M payload hb hroom⟩

theorem startup_branch_witness :
    sample_tags.valid ∧
    (startup_first_envelope sample_tags [4, 11, 0] = .first_boot ↔
      ∃ size k rest, read_zigzag_int [4, 11, 0] = .ok size k ∧
        ([4, 11, 0] : List Nat).drop k = sample_tags.TakeBecomingPrimaryCheckpoint :: rest) ∧
    (startup_first_envelope sample_tags [4, 11, 0] ≠ .first_boot →
      amb_startup_protocol sample_tags [4, 11, 0] = .abort [] ∨
        amb_startup_protocol sample_tags [4, 11, 0] = .fault []) :=
  ⟨by decide, (startup_branch sample_tags (by decide) [4, 11, 0]).1,
    (startup_branch sample_tags (by decide) [4, 11, 0]).2.2.2.2.1⟩

theorem startup_message_bytes (M : MsgTypes) :
    write_zigzag_int (((amb_write_incoming_rpc M STARTUP_ID 1 [5, 4, 3]).length : Int) + 1)
        ++ [M.InitialMessage] ++ amb_write_incoming_rpc M STARTUP_ID 1 [5, 4, 3] =
      [0x12, M.InitialMessage, 0x0E, M.RPC, 0x00, 0x40, 0x01, 0x05, 0x04, 0x03] := by
  have h1 : amb_write_incoming_rpc M STARTUP_ID 1 [5, 4, 3] =
      [0x0E, M.RPC, 0x00, 0x40, 0x01, 0x05, 0x04, 0x03] := rfl
  have h2 : ((([0x0E, M.RPC, 0x00, 0x40, 0x01, 0x05, 0x04, 0x03] : List Nat).length : Nat)
      : Int) + 1 = 9 := by simp
  have h3 : write_zigzag_int 9 = [0x12] := by decide
  rw [h1, h2, h3]
  rfl

/-- C12 as stated fails: on the first-boot branch, with an 11-byte payload
buffer, the bytes sent are the ten bytes `12 IM 0E RPC 00 40 01 05 04 03`
(`methodID = 32` zig-zags to 64, the single byte `0x40`), not the eleven bytes
`14 IM 10 RPC 00 80 01 01 05 04 03`.  (And with the 3-byte payload
`04 TakeBecomingPrimaryCheckpoint 00` the ten bytes do not fit the payload buffer
they are written to.) -/
theorem startup_message_not_eleven_bytes :
    startup_first_envelope sample_tags [4, 11, 0, 0, 0, 0, 0, 0, 0, 0, 0] = .first_boot ∧
    amb_startup_protocol sample_tags [4, 11, 0, 0, 0, 0, 0, 0, 0, 0, 0] =
      .done [.send [0x12, sample_tags.InitialMessage, 0x0E, sample_tags.RPC, 0x00, 0x40, 0x01,
        0x05, 0x04, 0x03], .dummy_checkpoint] () ∧
    amb_startup_protocol sample_tags [4, 11, 0, 0, 0, 0, 0, 0, 0, 0, 0] ≠
      .done [.send [0x14, sample_tags.InitialMessage, 0x10, sample_tags.RPC, 0x00, 0x80, 0x01,
        0x01, 0x05, 0x04, 0x03], .dummy_checkpoint] () ∧
    amb_startup_protocol sample_tags [4, 11, 0] = .fault [] := by
  decide

/-- C12 (startup message bytes, amended).  On the first-boot branch, when the
payload buffer of the startup record holds at least 10 bytes,
`amb_startup_protocol` sends on the up socket exactly `varint(n+1)`, the
`InitialMessage` type byte and `R`, where `R` (`n` = 8 bytes) is the output of
`amb_write_incoming_rpc(STARTUP_ID = 32, fireForget = 1, args = 5, 4, 3)`:
concretely the 10 bytes `12 IM 0E RPC 00 40 01 05 04 03`; and it then calls
`send_dummy_checkpoint` exactly once, after that send. -/
theorem startup_message (M : MsgTypes) (payload : List Nat)
    (hb : startup_first_envelope M payload = .first_boot) (hroom : 10 ≤ payload.length) :
    amb_startup_protocol M payload =
      .done [.send (write_zigzag_int
          (((amb_write_incoming_rpc M STARTUP_ID 1 [5, 4, 3]).length : Int) + 1)
          ++ [M.InitialMessage] ++ amb_write_incoming_rpc M STARTUP_ID 1 [5, 4, 3]),
        .dummy_checkpoint] () ∧
    STARTUP_ID = 32 ∧
    (amb_write_incoming_rpc M STARTUP_ID 1 [5, 4, 3]).length = 8 ∧
    write_zigzag_int (((amb_write_incoming_rpc M STARTUP_ID 1 [5, 4, 3]).length : Int) + 1)
        ++ [M.InitialMessage] ++ amb_write_incoming_rpc M STARTUP_ID 1 [5, 4, 3] =
      [0x12, M.InitialMessage, 0x0E, M.RPC, 0x00, 0x40, 0x01, 0x05, 0x04, 0x03] := by
  refine ⟨?_, rfl, rfl, startup_message_bytes M⟩
  rw [startup_message_bytes M]
  exact amb_startup_protocol_first_boot M payload hb hroom

theorem startup_message_witness :
    startup_first_envelope sample_tags [4, 11, 0, 0, 0, 0, 0, 0, 0, 0] = .first_boot ∧
    10 ≤ ([4, 11, 0, 0, 0, 0, 0, 0, 0, 0] : List Nat).length ∧
    amb_startup_protocol sample_tags [4, 11, 0, 0, 0, 0, 0, 0, 0, 0] =
      .done [.send (write_zigzag_int
          (((amb_write_incoming_rpc sample_tags STARTUP_ID 1 [5, 4, 3]).length : Int) + 1)
          ++ [sample_tags.InitialMessage] ++ amb_write_incoming_rpc sample_tags STARTUP_ID 1 [5, 4, 3]),
        .dummy_checkpoint] () :=
  ⟨by decide, by decide,
    (startup_message sample_tags [4, 11, 0, 0, 0, 0, 0, 0, 0, 0] (by decide) (by decide)).1⟩

/-! ## Vectors and the direct send path -/

/-- C14 (incoming-RPC vector, scenario S2).  `amb_write_incoming_rpc` with
`methodID = 7`, `fireForget = 1` and no arguments writes exactly the five bytes
`08 RPC 00 0E 01`, so the returned cursor is the buffer advanced by 5. -/
theorem incoming_rpc_vector (M : MsgTypes) :
    amb_write_incoming_rpc M 7 1 [] = [0x08, M.RPC, 0x00, 0x0E, 0x01] ∧
      (amb_write_incoming_rpc M 7 1 []).length = 5 :=
  ⟨rfl, rfl⟩

/-- C16 (the direct send path puts the buffer writer's frame on the wire).  The
two runs `amb_send_outgoing_rpc` passes to `amb_socket_send_all` are the header
written by `amb_write_outgoing_rpc_hdr` and then `args`; their concatenation is
the frame written by `amb_write_outgoing_rpc`, which is the header writer's
output followed by `args`. -/
theorem direct_send_same_frame (M : MsgTypes) (dest : List Nat) (rpcOrRet : Nat)
    (methodID : Int) (fireForget : Nat) (args : List Nat) :
    amb_send_outgoing_rpc M dest rpcOrRet methodID fireForget args =
      [.send (amb_write_outgoing_rpc_hdr M dest rpcOrRet methodID fireForget args.length),
        .send args] ∧
    sent_bytes (amb_send_outgoing_rpc M dest rpcOrRet methodID fireForget args) =
      amb_write_outgoing_rpc M dest rpcOrRet methodID fireForget args ∧
    amb_write_outgoing_rpc M dest rpcOrRet methodID fireForget args =
      amb_write_outgoing_rpc_hdr M dest rpcOrRet methodID fireForget args.length ++ args := by
  refine ⟨rfl, ?_, rfl⟩
  simp [amb_send_outgoing_rpc, sent_bytes, amb_write_outgoing_rpc, amb_write_outgoing_rpc_hdr]

/-- The bytes stored by the write loop for a 32-bit pattern are its base-128
little-endian groups, with the high bit on every byte except the last. -/
theorem write_zigzag_loop_groups (z : Nat) (hz : z < 4294967296) :
    write_zigzag_loop 5 z = base128_groups z := by
  have q1 : z / 128 < 4294967296 := by omega
  have q2 : z / 128 / 128 < 4294967296 := by omega
  have q3 : z / 128 / 128 / 128 < 4294967296 := by omega
  have q4 : z / 128 / 128 / 128 / 128 < 4294967296 := by omega
  unfold base128_groups
  rw [write_zigzag_loop_succ _ _ hz]
  by_cases h1 : 128 ≤ z
  swap
  · rw [if_neg h1, Nat.log_of_lt (by omega)]
    simp [List.range_succ]
    omega
  rw [if_pos h1, write_zigzag_loop_succ _ _ q1]
  by_cases h2 : 128 ≤ z / 128
  swap
  · rw [if_neg h2, @Nat.log_eq_of_pow_le_of_lt_pow 128 1 z (by omega) (by omega)]
    simp [List.range_succ]
    omega
  rw [if_pos h2, write_zigzag_loop_succ _ _ q2]
  by_cases h3 : 128 ≤ z / 128 / 128
  swap
  · rw [if_neg h3, @Nat.log_eq_of_pow_le_of_lt_pow 128 2 z (by omega) (by omega)]
    simp [List.range_succ]
    omega
  rw [if_pos h3, write_zigzag_loop_succ _ _ q3]
  by_cases h4 : 128 ≤ z / 128 / 128 / 128
  swap
  · rw [if_neg h4, @Nat.log_eq_of_pow_le_of_lt_pow 128 3 z (by omega) (by omega)]
    simp [List.range_succ]
    omega
  rw [if_pos h4, write_zigzag_loop_succ _ _ q4]
  have h5 : ¬ (128 ≤ z / 128 / 128 / 128 / 128) := by omega
  rw [if_neg h5, @Nat.log_eq_of_pow_le_of_lt_pow 128 4 z (by omega) (by omega)]
  simp [List.range_succ]
  omega

/-- C13 (varint vectors, scenario S1).  `write_zigzag_int` emits `00` for 0,
`01` for -1, `02` for 1, `7E` for 63 and `80 01` for 64; and for every value it
emits the base-128 little-endian groups of `z = (v << 1) ^ (v >> 31)` with the
high bit set on every byte except the last. -/
theorem varint_vectors :
    write_zigzag_int 0 = [0x00] ∧ write_zigzag_int (-1) = [0x01] ∧
      write_zigzag_int 1 = [0x02] ∧ write_zigzag_int 63 = [0x7E] ∧
      write_zigzag_int 64 = [0x80, 0x01] ∧
      ∀ v : Int, write_zigzag_int v = base128_groups (zigzag_bits v) :=
  ⟨by decide, by decide, by decide, by decide, by decide,
    fun v => write_zigzag_loop_groups _ (zigzag_bits_lt v)⟩

theorem batch_body_length_ge (inner : List (Nat × RpcMsg)) :
    inner.length ≤ (batch_body inner).length := by
  induction inner with
  | nil => simp [batch_body]
  | cons tm tms ih =>
    simp only [batch_body, List.length_cons, List.length_append, envelope_length]
    omega

/-- C15 (batch dispatch, scenario S4 generalised).  For a payload that is one
`RPCBatch` envelope declaring `numMsgs = k` and holding `k` well-formed inner
envelopes, whatever their type bytes, the walk makes exactly the `k` dispatch
calls of the inner messages, in order, and ends with its cursor at the end of
the last inner envelope, which is the end of the payload. -/
theorem batch_dispatch (M : MsgTypes) (hM : M.valid) (inner : List (Nat × RpcMsg))
    (hw : ∀ tm ∈ inner, tm.2.wf)
    (hfit : ((write_zigzag_int inner.length ++ batch_body inner).length : Int) + 1
      < 2147483648) :
    amb_normal_processing_walk M (rpc_batch M inner) =
      .done (batch_events inner) (rpc_batch M inner).length := by
  have hk : (inner.length : Int) < 2147483648 := by
    have := batch_body_length_ge inner
    simp only [List.length_append] at hfit
    omega
  have hsize : is_i32 (((write_zigzag_int inner.length ++ batch_body inner).length : Int) + 1) := by
    unfold is_i32
    omega
  have he : rpc_batch M inner =
      batch_envelope M (((write_zigzag_int inner.length ++ batch_body inner).length : Int) + 1)
        inner := by
    simp [rpc_batch, envelope, batch_envelope]
  have hd0 : (rpc_batch M inner).drop 0 =
      batch_envelope M (((write_zigzag_int inner.length ++ batch_body inner).length : Int) + 1)
        inner ++ rpc_payload M [] := by
    rw [← he]
    simp [rpc_payload]
  have hlen : 1 ≤ (rpc_batch M inner).length := by
    rw [he, batch_envelope_length]
    omega
  unfold amb_normal_processing_walk
  rw [message_loop_batch M hM _ _ 0 [] _ hsize inner hw hk _ hd0,
    message_loop_rpcs M _ [] _ _ _ (by simp) (by simp; omega) (drop_add_of_drop_eq hd0)
      (by rw [← he]; omega)]
  simp

theorem batch_dispatch_witness :
    sample_tags.valid ∧
    (∀ tm ∈ [((0 : Nat), ({ reserved := 0, methodID := 1, fireForget := 1, args := [] } : RpcMsg)),
        (7, { reserved := 0, methodID := 2, fireForget := 1, args := [] })], tm.2.wf) ∧
    ((write_zigzag_int
        [((0 : Nat), ({ reserved := 0, methodID := 1, fireForget := 1, args := [] } : RpcMsg)),
          (7, { reserved := 0, methodID := 2, fireForget := 1, args := [] })].length
        ++ batch_body
          [(0, { reserved := 0, methodID := 1, fireForget := 1, args := [] }),
            (7, { reserved := 0, methodID := 2, fireForget := 1, args := [] })]).length : Int) + 1
      < 2147483648 ∧
    amb_normal_processing_walk sample_tags (rpc_batch sample_tags
        [(0, { reserved := 0, methodID := 1, fireForget := 1, args := [] }),
          (7, { reserved := 0, methodID := 2, fireForget := 1, args := [] })]) =
      .done (batch_events
          [(0, { reserved := 0, methodID := 1, fireForget := 1, args := [] }),
            (7, { reserved := 0, methodID := 2, fireForget := 1, args := [] })])
        (rpc_batch sample_tags
          [(0, { reserved := 0, methodID := 1, fireForget := 1, args := [] }),
            (7, { reserved := 0, methodID := 2, fireForget := 1, args := [] })]).length :=
  ⟨by decide, by decide, by decide,
    batch_dispatch sample_tags (by decide)
      [(0, { reserved := 0, methodID := 1, fireForget := 1, args := [] }),
        (7, { reserved := 0, methodID := 2, fireForget := 1, args := [] })]
      (by decide) (by decide)⟩

/-- The walk on the batch of two trivial RPCs (methods 1 and 2, no arguments):
two dispatch calls, in order, and the cursor at the end of the 13-byte payload. -/
theorem batch_of_two_trivial_rpcs :
    rpc_batch sample_tags
        [(0, { reserved := 0, methodID := 1, fireForget := 1, args := [] }),
          (0, { reserved := 0, methodID := 2, fireForget := 1, args := [] })] =
      [24, 5, 4, 8, 0, 0, 2, 1, 8, 0, 0, 4, 1] ∧
    amb_normal_processing_walk sample_tags [24, 5, 4, 8, 0, 0, 2, 1, 8, 0, 0, 4, 1] =
      .done [.dispatch 1 [] 0, .dispatch 2 [] 0] 13 := by
  decide
end Ambrosia
